import Mathlib

/-!
# emp3r0r agent core: tunnel session, proxy discovery, wire codec

A shallow embedding of `core/lib/agent/poll.go`, `core/lib/agent/broadcast.go` and the
declarations of `core/internal/agent/def.go` they use, followed by theorems about them.
The library functions the code calls (`strings.Split`, `encoding/json`, `unicode/utf8`) are
embedded from the Go standard library.

Conventions of the embedding.

* A Go `string` is the list of its bytes (`GoString`), each byte a natural number below 256
  (no theorem needs the bound; valid UTF-8 implies it, see `ValidString_bytes`).
* A Go `error` is `Option String`: `none` is `nil`, `some e` is an error with text `e`.
* Calls that leave the process (the network, the JSON stream, the liveness probe) are
  oracles: functions from the number of calls made so far to the outcome of the next call.
* Every loop that may run forever is embedded as its guarded loop body (one iteration),
  and a run is a finite list of iterations.
-/

namespace Emp3r0r

/-! ## Strings and constants (`def.go`) -/

/-- A Go string is a sequence of bytes. -/
abbrev GoString := List Nat

/-- The bytes of an ASCII string literal of the source. -/
def lit (s : String) : GoString := s.toList.map Char.toNat

/-- Constant `Tag` of `def.go`: uuid of this agent. -/
def Tag : GoString := lit "[agent_uuid]"

/-- Constant `ProxyPort` of `def.go`. -/
def ProxyPort : GoString := lit "[proxy_port]"

/-- Constant `BroadcastPort` of `def.go`. -/
def BroadcastPort : GoString := lit "[broadcast_port]"

/-- The heartbeat marker, the literal `"hello"` of `poll.go`. -/
def hello : GoString := lit "hello"

/-- Type `MsgTunData` of `def.go`: data to send in the tunnel. -/
structure MsgTunData where
  Payload : GoString
  Tag : GoString
deriving DecidableEq, Repr

/-! ## `ConnectCC` (`poll.go`, lines 85-108) -/

/-- Constant `http.StatusOK`. -/
def StatusOK : Int := 200

/-- What `ConnectCC` hands back: the connection (`none` is `nil`) and the named result `err`.
The context and its cancel function do not depend on the outcome and are left out. -/
structure ConnectResult where
  conn : Option Nat
  err : Option String
deriving DecidableEq, Repr

/-- Function `ConnectCC`. The argument is the outcome of `h2.Connect(ctx, url)`: an error, or
a connection handle together with `resp.StatusCode`. The named results `conn` and `err` are
assigned by that call and both `return` statements are bare, so they return them as they
are. -/
def ConnectCC (connect : Except String (Nat × Int)) : ConnectResult :=
  match connect with
  | .error e =>
    -- conn, resp, err = h2.Connect(ctx, url); err != nil: log and return
    { conn := none, err := some e }
  | .ok (c, statusCode) =>
    let conn := some c
    let err : Option String := none
    if statusCode ≠ StatusOK then
      -- log.Printf("Bad status code: %d", resp.StatusCode); return
      { conn := conn, err := err }
    else
      { conn := conn, err := err }

/-! ## `CCMsgTun` (`poll.go`, lines 110-184) -/

/-- The stream `H2Json` as seen by `CCMsgTun`: the outcome of the `k`-th call of
`in.Decode(&msg)` (an error, or the value left in `msg`) and of the `k`-th call of
`out.Encode(msg)` (its error). -/
structure Wire where
  Decode : Nat → Except String MsgTunData
  Encode : Nat → MsgTunData → Option String

/-- The variables shared by the two duties of `CCMsgTun`, with the calls made so far. -/
structure Tun where
  /-- the named result `err` -/
  err : Option String
  /-- the variable `msg` -/
  msg : MsgTunData
  /-- the value of `ctx.Err()` -/
  ctxErr : Option String
  /-- number of calls of `in.Decode` made -/
  decodes : Nat
  /-- number of calls of `out.Encode` made -/
  encodes : Nat
  /-- one entry per statement `go processCCData(&msg)` executed, in order: the value `msg`
  held at that moment (the goroutine is given the address of `msg`, not this value) -/
  started : List MsgTunData
  /-- number of started `processCCData` goroutines that have not read `msg` yet -/
  pending : Nat
  /-- what the `processCCData` goroutines found in `msg` when they read it, in the order of
  the reads -/
  seen : List MsgTunData
  /-- the receive loop (the goroutine of lines 129-147) has been left -/
  recvExited : Bool
  /-- the heartbeat loop (lines 169-175) has been left -/
  sendExited : Bool
deriving DecidableEq, Repr

/-- State of `CCMsgTun` when its two loops start. -/
def Tun.init : Tun :=
  { err := none, msg := ⟨[], []⟩, ctxErr := none, decodes := 0, encodes := 0,
    started := [], pending := 0, seen := [], recvExited := false, sendExited := false }

/-- One pass of the receive loop `for ctx.Err() == nil { ... }` of lines 131-145. The
statement `go processCCData(&msg)` starts a goroutine that holds the address of the variable
`msg`; what that goroutine reads is decided when it runs (`processStep`). -/
def recvStep (w : Wire) (s : Tun) : Tun :=
  if s.recvExited then s
  else if s.ctxErr ≠ none then { s with recvExited := true }
  else
    -- err = in.Decode(&msg)
    match w.Decode s.decodes with
    | .error e =>
      -- log; break
      { s with err := some e, decodes := s.decodes + 1, recvExited := true }
    | .ok m =>
      let s := { s with err := none, msg := m, decodes := s.decodes + 1 }
      let payload := s.msg.Payload
      if payload = hello then
        s -- continue
      else
        -- go processCCData(&msg)
        { s with started := s.started ++ [s.msg], pending := s.pending + 1 }

/-- The closure `sendHello` of lines 149-166: try `cnt` times then exit. -/
def sendHello (w : Wire) (cnt : Int) (s : Tun) : Bool × Tun :=
  if cnt > 0 then
    let cnt := cnt - 1 -- consume cnt
    -- send hello
    let s := { s with msg := { Payload := hello, Tag := Tag } }
    let s := { s with err := w.Encode s.encodes s.msg, encodes := s.encodes + 1 }
    if s.err ≠ none then
      -- log; sleep; continue
      sendHello w cnt s
    else
      (true, s)
  else
    (false, s)
termination_by cnt.toNat
decreasing_by omega

/-- One pass of the heartbeat loop `for ctx.Err() == nil { ... }` of lines 169-175. -/
def sendStep (w : Wire) (s : Tun) : Tun :=
  if s.sendExited then s
  else if s.ctxErr ≠ none then { s with sendExited := true }
  else
    -- time.Sleep(1 * time.Second)
    let r := sendHello w 10 s
    if !r.1 then
      -- log.Print("sendHello failed after 10 tries"); break
      { r.2 with sendExited := true }
    else
      r.2

/-- Cancellation of the lifetime context from outside the two loops (the function `cancel`
is held by the caller and by `catchInterruptAndExit`). -/
def cancelStep (s : Tun) : Tun :=
  if s.ctxErr = none then { s with ctxErr := some "context canceled" } else s

/-- Modelled from the spec: `processCCData` is not under `src/`. The handler is given the
message and decodes its payload (spec, 4.4); its argument is the pointer `&msg`, so a started
goroutine that has not read yet reads the variable `msg` as it is when the goroutine runs. -/
def processStep (s : Tun) : Tun :=
  if s.pending = 0 then s
  else { s with pending := s.pending - 1, seen := s.seen ++ [s.msg] }

/-- What can happen next while `CCMsgTun` is in its loops: a pass of the receive loop, a pass
of the heartbeat loop, a cancellation, the read of `msg` by a started `processCCData`. -/
inductive Event where
  | recv
  | send
  | cancel
  | process
deriving DecidableEq, Repr

/-- One event. -/
def step (w : Wire) (s : Tun) : Event → Tun
  | .recv => recvStep w s
  | .send => sendStep w s
  | .cancel => cancelStep s
  | .process => processStep s

/-- A finite run: the events in the order in which they happen. -/
def run (w : Wire) (evs : List Event) (s : Tun) : Tun :=
  evs.foldl (step w) s

/-- Lines 177-183: the value of the expression returned by `return err` once the heartbeat
loop is left. -/
def closingError (s : Tun) : Option String :=
  let err := if s.err = none then some "CC disconnected" else s.err
  match s.ctxErr with
  | some c => some ("ctx: " ++ c ++ "\nerr: " ++ err.getD "<nil>")
  | none => err

/-- The end of `CCMsgTun` once the heartbeat loop is left. The statement `return err` of
line 183 stores `closingError` in the named result `err`; then the deferred function of
lines 118-126 runs: it assigns `err = H2Json.Close()`, whose outcome is `close`, and calls
`cancel()`. -/
def CCMsgTunExit (close : Option String) (s : Tun) : Tun :=
  -- return err
  let s := { s with err := closingError s }
  -- defer: err = H2Json.Close()
  let s := { s with err := close }
  -- defer: cancel()
  cancelStep s

/-- The value `CCMsgTun` returns to its caller: the named result `err` after the deferred
function has run. -/
def CCMsgTunReturn (close : Option String) (s : Tun) : Option String :=
  (CCMsgTunExit close s).err

/-! ## `strings.Split` -/

/-- Function `strings.Index`: the index of the first instance of `sep` in `s`, `none` (the
Go value `-1`) if there is none. -/
def Index (s sep : GoString) : Option Nat :=
  if sep.isPrefixOf s then some 0
  else
    match s with
    | [] => none
    | _ :: t => (Index t sep).map (· + 1)

/-- The loop of `strings.genSplit` for a non-empty separator: cut at the first instance of
`sep`, go on with what follows it; `n` bounds the number of cuts. -/
def splitLoop (sep : GoString) : Nat → GoString → List GoString
  | 0, s => [s]
  | n + 1, s =>
    match Index s sep with
    | none => [s]
    | some m => s.take m :: splitLoop sep n (s.drop (m + sep.length))

/-- Function `strings.Split(s, sep)` for a non-empty separator `sep`: the substrings of `s`
between the instances of `sep`. A string of `len(s)` bytes holds at most `len(s)` instances
of a non-empty separator, so `len(s)` cuts are enough. -/
def Split (s sep : GoString) : List GoString :=
  splitLoop sep s.length s

/-! ## `BroadcastServer` (`broadcast.go`, lines 15-67) -/

/-- A goroutine started by `BroadcastServer`. -/
inductive Spawn where
  /-- `tun.TCPFwd(addr, port, ctx, cancel)` -/
  | TCPFwd (addr port : GoString)
  /-- `StartBroadcast(start_socks5, ctx, cancel)` -/
  | StartBroadcast (start_socks5 : Bool)
deriving DecidableEq, Repr

/-- What the listener calls outside `broadcast.go`: `tun.AESDecrypt(AESKey, ·)`, and
`tun.IsProxyOK`, a probe of the network whose `k`-th call has its own outcome. -/
structure Peer where
  AESDecrypt : GoString → GoString
  IsProxyOK : Nat → GoString → Bool

/-- The variable `AgentProxy` of `def.go`, the goroutines started by `BroadcastServer` so far
and the number of liveness probes made so far. -/
structure Listener where
  AgentProxy : GoString
  spawned : List Spawn
  probes : Nat
deriving DecidableEq, Repr

/-- One pass of the loop `for ctx.Err() == nil { ... }` of `BroadcastServer` (lines 28-65);
`rd` is the outcome of `pc.ReadFrom(buf)`: an error, or the datagram `buf[:n]`. -/
def listenStep (p : Peer) (rd : Except String GoString) (s : Listener) : Listener :=
  match rd with
  | .error _ => s -- log; continue
  | .ok datagram =>
    -- decrypt broadcast message
    let decMsg := p.AESDecrypt datagram
    if decMsg = [] then
      s -- log; continue
    else
      -- AgentProxy != "" && tun.IsProxyOK(AgentProxy): the probe is called only when
      -- AgentProxy is not empty
      let working := decide (s.AgentProxy ≠ []) && p.IsProxyOK s.probes s.AgentProxy
      let s := if s.AgentProxy ≠ [] then { s with probes := s.probes + 1 } else s
      if working then
        s -- log; continue
      else
        let ok := p.IsProxyOK s.probes decMsg
        let s := { s with probes := s.probes + 1 }
        if ok then
          let s := { s with AgentProxy := decMsg }
          -- pass the proxy to others
          let sl := Split s.AgentProxy (lit "//")
          if sl.length < 2 then
            s -- log; continue
          else
            { s with spawned := s.spawned ++
                [Spawn.TCPFwd (sl.getD 1 []) ProxyPort, Spawn.StartBroadcast false] }
        else
          s

/-- The number of the call of `tun.IsProxyOK` that probes the candidate in a pass started
in state `s`: it comes after the probe of `AgentProxy`, which is made only when `AgentProxy`
is not empty. -/
def candidateProbe (s : Listener) : Nat :=
  if s.AgentProxy ≠ [] then s.probes + 1 else s.probes

/-! ## `BroadcastMsg` and `StartBroadcast` (`broadcast.go`, lines 69-120) -/

/-- An element of the result of `tun.IPaddr()`: the text `netip.IP.String()` and the mask. -/
structure IPNet where
  IP : GoString
  Mask : GoString
deriving DecidableEq, Repr

/-- Outcomes of the calls one `BroadcastMsg` makes on the network: `net.ListenPacket`,
`net.ResolveUDPAddr` and `pc.WriteTo`. -/
structure SendEnv where
  listenErr : Option String
  resolveErr : Option String
  writeErr : Option String

/-- The text of a Go string in an error message. -/
def GoString.text (s : GoString) : String := String.mk (s.map Char.ofNat)

/-- Function `BroadcastMsg(msg, dst)`: its error, and the datagram written with its
destination `dst:BroadcastPort` when `pc.WriteTo` is reached. `AESEncrypt` is
`tun.AESEncrypt(AESKey, ·)`. -/
def BroadcastMsg (env : SendEnv) (AESEncrypt : GoString → GoString) (msg dst : GoString) :
    Option String × Option (GoString × GoString) :=
  match env.listenErr with
  | some e => (some e, none)
  | none =>
    let addr := dst ++ lit ":" ++ BroadcastPort
    match env.resolveErr with
    | some e => (some e, none)
    | none =>
      -- encrypt message
      let encMsg := AESEncrypt msg
      if encMsg = [] then
        (some ("failed to encrypt " ++ msg.text), none)
      else
        (env.writeErr, some (encMsg, addr))

/-- What a round of `StartBroadcast` has done: the calls of `BroadcastMsg` made (message and
destination), the datagrams written, the number of failures logged. -/
structure Advertiser where
  attempts : List (GoString × GoString)
  written : List (GoString × GoString)
  failures : Nat
deriving DecidableEq, Repr

/-- The loop `for _, netip := range ips { ... }` of `StartBroadcast` (lines 108-118): one
round of the advertiser. `IPbroadcastAddr` is `tun.IPbroadcastAddr`, and `env k` gives the
network outcomes of the `k`-th call of `BroadcastMsg`. -/
def broadcastRound (env : Nat → SendEnv) (AESEncrypt : GoString → GoString)
    (IPbroadcastAddr : IPNet → GoString) : List IPNet → Advertiser → Advertiser
  | [], s => s
  | netip :: ips, s =>
    let proxyMsg := lit "socks5://" ++ netip.IP ++ lit ":" ++ ProxyPort
    let broadcastAddr := IPbroadcastAddr netip
    if broadcastAddr = [] then
      broadcastRound env AESEncrypt IPbroadcastAddr ips s -- continue
    else
      let r := BroadcastMsg (env s.attempts.length) AESEncrypt proxyMsg broadcastAddr
      let s : Advertiser :=
        { attempts := s.attempts ++ [(proxyMsg, broadcastAddr)]
          written := s.written ++ r.2.toList
          failures := if r.1 ≠ none then s.failures + 1 else s.failures }
      broadcastRound env AESEncrypt IPbroadcastAddr ips s

/-- Body of `StartBroadcast` between two sleeps: `ips := tun.IPaddr()` and the loop over
it. -/
def StartBroadcastRound (env : Nat → SendEnv) (AESEncrypt : GoString → GoString)
    (IPbroadcastAddr : IPNet → GoString) (ips : List IPNet) : Advertiser :=
  broadcastRound env AESEncrypt IPbroadcastAddr ips { attempts := [], written := [], failures := 0 }

/-! ## The wire codec: `json.NewEncoder(H2Json)` and `json.NewDecoder(H2Json)`

`CCMsgTun` exchanges `MsgTunData` values through Go's `encoding/json`. The functions below
follow that package (and `unicode/utf8`, `unicode/utf16`) for a struct of two string fields
tagged `payload` and `tag`. Bit masks on bytes are written as remainders, shifts as products
and quotients, and an `or` of disjoint bit fields as a sum. -/

/-- Constant `utf8.RuneError`, the replacement character U+FFFD. -/
def RuneError : Nat := 0xFFFD

/-- Table `first` of `unicode/utf8`: information about the first byte of an encoding.
`0xF0` is ASCII, `0xF1` is invalid, otherwise the low three bits are the size and the high
four bits index `acceptRanges`. -/
def first (b : Nat) : Nat :=
  if b < 0x80 then 0xF0
  else if b < 0xC2 then 0xF1
  else if b < 0xE0 then 0x02
  else if b = 0xE0 then 0x13
  else if b < 0xED then 0x03
  else if b = 0xED then 0x23
  else if b < 0xF0 then 0x03
  else if b = 0xF0 then 0x34
  else if b < 0xF4 then 0x04
  else if b = 0xF4 then 0x44
  else 0xF1

/-- Table `acceptRanges` of `unicode/utf8`: the range of valid second bytes. -/
def acceptRanges (i : Nat) : Nat × Nat :=
  match i with
  | 0 => (0x80, 0xBF)
  | 1 => (0xA0, 0xBF)
  | 2 => (0x80, 0x9F)
  | 3 => (0x90, 0xBF)
  | 4 => (0x80, 0x8F)
  | _ => (0, 0)

/-- Function `utf8.DecodeRune`: the first rune of `p` and its width in bytes; an invalid
encoding gives `(RuneError, 1)`, the empty string `(RuneError, 0)`. -/
def DecodeRune (p : GoString) : Nat × Nat :=
  match p with
  | [] => (RuneError, 0)
  | p0 :: t =>
    let x := first p0
    if x ≥ 0xF0 then
      (if x = 0xF0 then p0 else RuneError, 1)
    else
      let sz := x % 8
      let accept := acceptRanges (x / 16)
      if p.length < sz then (RuneError, 1)
      else
        match t with
        | [] => (RuneError, 1)
        | b1 :: t1 =>
          if b1 < accept.1 ∨ accept.2 < b1 then (RuneError, 1)
          else if sz ≤ 2 then ((p0 % 32) * 64 + b1 % 64, 2)
          else
            match t1 with
            | [] => (RuneError, 1)
            | b2 :: t2 =>
              if b2 < 0x80 ∨ 0xBF < b2 then (RuneError, 1)
              else if sz ≤ 3 then ((p0 % 16) * 4096 + (b1 % 64) * 64 + b2 % 64, 3)
              else
                match t2 with
                | [] => (RuneError, 1)
                | b3 :: _ =>
                  if b3 < 0x80 ∨ 0xBF < b3 then (RuneError, 1)
                  else ((p0 % 8) * 262144 + (b1 % 64) * 4096 + (b2 % 64) * 64 + b3 % 64, 4)

/-- Function `utf8.EncodeRune`: the UTF-8 encoding of the rune `r`; a surrogate or a value
above U+10FFFF is encoded as U+FFFD. -/
def EncodeRune (r : Nat) : GoString :=
  if r ≤ 0x7F then [r]
  else if r ≤ 0x7FF then [0xC0 + r / 64, 0x80 + r % 64]
  else if r > 0x10FFFF ∨ (0xD800 ≤ r ∧ r ≤ 0xDFFF) then [0xEF, 0xBF, 0xBD]
  else if r ≤ 0xFFFF then [0xE0 + r / 4096, 0x80 + (r / 64) % 64, 0x80 + r % 64]
  else [0xF0 + r / 262144, 0x80 + (r / 4096) % 64, 0x80 + (r / 64) % 64, 0x80 + r % 64]

/-- The loop of `utf8.ValidString`: every rune of `s` decodes without error. Each pass
consumes at least one byte, `n` bounds the number of passes. -/
def validLoop : Nat → GoString → Bool
  | 0, s => s.isEmpty
  | _ + 1, [] => true
  | n + 1, b :: t =>
    let r := DecodeRune (b :: t)
    if r.1 = RuneError ∧ r.2 = 1 then false
    else validLoop n ((b :: t).drop r.2)

/-- Function `utf8.ValidString`: `s` consists entirely of valid UTF-8-encoded runes. -/
def ValidString (s : GoString) : Bool := validLoop s.length s

/-- The string `hex` of `encoding/json`: the digit `"0123456789abcdef"[d]`. -/
def hex (d : Nat) : Nat := if d < 10 then 48 + d else 87 + d

/-- Table `htmlSafeSet` of `encoding/json`: the ASCII bytes written as they are. All bytes
from the space on are, except the double quote, the backslash, `<`, `>` and `&`. -/
def htmlSafeSet (b : Nat) : Bool :=
  decide (0x20 ≤ b ∧ b < 0x80 ∧ b ≠ 34 ∧ b ≠ 38 ∧ b ≠ 60 ∧ b ≠ 62 ∧ b ≠ 92)

/-- The loop of `encodeState.string` (with `escapeHTML`, as `Encoder.Encode` sets it): the
text between the quotes of the JSON string for `s`. Each pass consumes at least one byte,
`n` bounds the number of passes. -/
def encodeStringLoop : Nat → GoString → GoString
  | 0, _ => []
  | _ + 1, [] => []
  | n + 1, b :: t =>
    if b < 0x80 then
      if htmlSafeSet b then b :: encodeStringLoop n t
      else if b = 92 ∨ b = 34 then 92 :: b :: encodeStringLoop n t
      else if b = 10 then 92 :: 110 :: encodeStringLoop n t
      else if b = 13 then 92 :: 114 :: encodeStringLoop n t
      else if b = 9 then 92 :: 116 :: encodeStringLoop n t
      else
        -- bytes < 0x20 except \t, \n and \r, and <, > and &
        92 :: 117 :: 48 :: 48 :: hex (b / 16) :: hex (b % 16) :: encodeStringLoop n t
    else
      let r := DecodeRune (b :: t)
      if r.1 = RuneError ∧ r.2 = 1 then
        lit "\\ufffd" ++ encodeStringLoop n t
      else if r.1 = 0x2028 ∨ r.1 = 0x2029 then
        lit "\\u202" ++ hex (r.1 % 16) :: encodeStringLoop n ((b :: t).drop r.2)
      else
        (b :: t).take r.2 ++ encodeStringLoop n ((b :: t).drop r.2)

/-- Method `encodeState.string`: the JSON string for `s`, quotes included. -/
def encodeString (s : GoString) : GoString :=
  34 :: encodeStringLoop s.length s ++ [34]

/-- `json.Marshal` of a `MsgTunData`: the fields in declaration order under their `json`
tags. -/
def Marshal (m : MsgTunData) : GoString :=
  123 :: lit "\"payload\":" ++ encodeString m.Payload ++ lit ",\"tag\":" ++
    encodeString m.Tag ++ [125]

/-- Method `Encoder.Encode`: the bytes `out.Encode(m)` writes to the stream, the JSON
encoding followed by a newline. -/
def Encode (m : MsgTunData) : GoString := Marshal m ++ [10]

/-- Function `getu4` of `encoding/json`: the rune of a `\uXXXX` escape at the start of `s`,
`none` (the Go value `-1`) if there is none. -/
def getu4 (s : GoString) : Option Nat :=
  let digit (c : Nat) : Option Nat :=
    if 48 ≤ c ∧ c ≤ 57 then some (c - 48)
    else if 97 ≤ c ∧ c ≤ 102 then some (c - 97 + 10)
    else if 65 ≤ c ∧ c ≤ 70 then some (c - 65 + 10)
    else none
  match s with
  | 92 :: 117 :: c1 :: c2 :: c3 :: c4 :: _ =>
    match digit c1, digit c2, digit c3, digit c4 with
    | some d1, some d2, some d3, some d4 => some (((d1 * 16 + d2) * 16 + d3) * 16 + d4)
    | _, _, _, _ => none
  | _ => none

/-- Function `utf16.DecodeRune`: the rune of a surrogate pair, U+FFFD if the pair is not
valid; `none` stands for the Go value `-1`. -/
def utf16DecodeRune (r1 : Nat) (r2 : Option Nat) : Nat :=
  match r2 with
  | some r2 =>
    if 0xD800 ≤ r1 ∧ r1 < 0xDC00 ∧ 0xDC00 ≤ r2 ∧ r2 < 0xE000 then
      (r1 - 0xD800) * 1024 + (r2 - 0xDC00) + 0x10000
    else 0xFFFD
  | none => 0xFFFD

/-- Reading a JSON string literal: `s` starts after the opening quote; the result is the
unquoted string (function `unquoteBytes` of `encoding/json`) and what follows the closing
quote. `none` is a syntax error (control character, bad escape, missing closing quote).
Each pass consumes at least one byte, `n` bounds the number of passes. -/
def unquote : Nat → GoString → Option (GoString × GoString)
  | 0, _ => none
  | n + 1, s =>
    match s with
    | [] => none
    | c :: rest =>
      if c = 34 then some ([], rest)
      else if c = 92 then
        match rest with
        | [] => none
        | e :: rest1 =>
          if e = 34 ∨ e = 92 ∨ e = 47 then
            (unquote n rest1).map fun r => (e :: r.1, r.2)
          else if e = 98 then (unquote n rest1).map fun r => (8 :: r.1, r.2)
          else if e = 102 then (unquote n rest1).map fun r => (12 :: r.1, r.2)
          else if e = 110 then (unquote n rest1).map fun r => (10 :: r.1, r.2)
          else if e = 114 then (unquote n rest1).map fun r => (13 :: r.1, r.2)
          else if e = 116 then (unquote n rest1).map fun r => (9 :: r.1, r.2)
          else if e = 117 then
            match getu4 s with
            | none => none
            | some rr =>
              if 0xD800 ≤ rr ∧ rr < 0xE000 then
                let dec := utf16DecodeRune rr (getu4 (s.drop 6))
                if dec ≠ 0xFFFD then
                  -- a valid pair; consume
                  (unquote n (s.drop 12)).map fun r => (EncodeRune dec ++ r.1, r.2)
                else
                  -- invalid surrogate; fall back to replacement rune
                  (unquote n (s.drop 6)).map fun r => (EncodeRune 0xFFFD ++ r.1, r.2)
              else
                (unquote n (s.drop 6)).map fun r => (EncodeRune rr ++ r.1, r.2)
          else none
      else if c < 0x20 then none
      else if c < 0x80 then (unquote n rest).map fun r => (c :: r.1, r.2)
      else
        -- coerce to well-formed UTF-8
        let d := DecodeRune s
        (unquote n (s.drop d.2)).map fun r => (EncodeRune d.1 ++ r.1, r.2)

/-- Function `isSpace` of the JSON scanner, applied to drop leading white space. -/
def skipSpace : GoString → GoString
  | [] => []
  | c :: t => if c = 32 ∨ c = 9 ∨ c = 13 ∨ c = 10 then skipSpace t else c :: t

/-- Function `simpleLetterEqualFold` of `encoding/json`: equality of two keys up to bit
`0x20` of each byte, the case-insensitive match for a field name made of letters. -/
def simpleLetterEqualFold (s t : GoString) : Bool :=
  let caseMask (b : Nat) : Nat := if (b / 32) % 2 = 1 then b - 32 else b
  decide (s.length = t.length) && decide (s.map caseMask = t.map caseMask)

/-- The field of `msg` a member with key `key` is stored in: an exact match of the `json`
tag is preferred, a case-insensitive match is accepted, any other key is ignored. -/
def setField (msg : MsgTunData) (key val : GoString) : MsgTunData :=
  if key = lit "payload" then { msg with Payload := val }
  else if key = lit "tag" then { msg with Tag := val }
  else if simpleLetterEqualFold (lit "payload") key then { msg with Payload := val }
  else if simpleLetterEqualFold (lit "tag") key then { msg with Tag := val }
  else msg

/-- The members of a JSON object, `s` starting at the first key, stored into `msg`; the
result also gives what follows the closing brace. Only members whose value is a JSON string
are in the fragment embedded here; for any other value the result is an error, which is not
what `encoding/json` does. `n` bounds the number of members. -/
def decodeMembers : Nat → MsgTunData → GoString → Except String (MsgTunData × GoString)
  | 0, _, _ => .error "unexpected end of JSON input"
  | n + 1, msg, s =>
    match skipSpace s with
    | 34 :: s1 =>
      match unquote s1.length s1 with
      | none => .error "invalid character in string literal"
      | some (key, s2) =>
        match skipSpace s2 with
        | 58 :: s3 =>
          match skipSpace s3 with
          | 34 :: s4 =>
            match unquote s4.length s4 with
            | none => .error "invalid character in string literal"
            | some (val, s5) =>
              let msg := setField msg key val
              match skipSpace s5 with
              | 44 :: s6 => decodeMembers n msg s6
              | 125 :: rest => .ok (msg, rest)
              | _ => .error "invalid character after object key:value pair"
          | _ => .error "value outside the embedded fragment"
        | _ => .error "invalid character after object key"
    | _ => .error "invalid character looking for beginning of object key string"

/-- Method `Decoder.Decode(&msg)` on the stream `input`: the next JSON value is read and
stored into `msg`; the result is the new value of `msg` and the rest of the stream. Fields
without a member in the object keep their value. Only objects are in the fragment embedded
here. -/
def Decode (msg : MsgTunData) (input : GoString) : Except String (MsgTunData × GoString) :=
  match skipSpace input with
  | [] => .error "EOF"
  | 123 :: s1 =>
    match skipSpace s1 with
    | 125 :: rest => .ok (msg, rest)
    | _ => decodeMembers s1.length msg s1
  | _ => .error "value outside the embedded fragment"

/-! ## `CliPrettyPrint` (`core/internal/cc/cli.go`, lines 218-232) -/

/-- The string `s` written `n` times. -/
def repeatLoop (s : GoString) : Nat → GoString
  | 0 => []
  | n + 1 => s ++ repeatLoop s n

/-- Function `strings.Repeat(s, count)`: `count` copies of `s`; it panics if `count` is
negative. (Its second panic, on a result of `2^63` bytes or more, is out of reach of the
one-byte strings repeated here and is left out.) -/
def Repeat (s : GoString) (count : Int) : Except String GoString :=
  if count < 0 then .error "strings: negative Repeat count"
  else .ok (repeatLoop s count.toNat)

/-- What a call of `CliPrettyPrint` has done: the lines written, and the panic that ended
it, if any. A line is the text handed to `color.Cyan` or `fmt.Println`, without the colour
escapes. -/
structure Printed where
  out : List GoString
  panic : Option String
deriving DecidableEq, Repr

/-- The loop `for c1, c2 := range *map2write { ... }` of `CliPrettyPrint` (lines 227-231);
the entries come in the order in which `range` visits them, `out` holds the lines written
so far. -/
def printRows (header1 : GoString) : List (GoString × GoString) → List GoString → Printed
  | [], out => { out := out, panic := none }
  | (c1, c2) :: rest, out =>
    let cnt : Int := (header1.length : Int) + 10 - (c1.length : Int)
    match Repeat (lit " ") cnt with
    | .error e => { out := out, panic := some e }
    | .ok sep =>
      -- color.Cyan("%s%s%s\n", c1, sep, c2)
      printRows header1 rest (out ++ [c1 ++ sep ++ c2 ++ lit "\n"])

/-- Function `CliPrettyPrint(header1, header2, map2write)`: prints two-column help info.
The map is given by its entries in the order in which `range` visits them. -/
def CliPrettyPrint (header1 header2 : GoString) (map2write : List (GoString × GoString)) :
    Printed :=
  let cnt : Int := 10
  match Repeat (lit " ") cnt with
  | .error e => { out := [], panic := some e }
  | .ok sep =>
    -- color.Cyan("%s%s%s\n", header1, sep, header2)
    let out := [header1 ++ sep ++ header2 ++ lit "\n"]
    match Repeat (lit "=") (header1.length : Int) with
    | .error e => { out := out, panic := some e }
    | .ok rule1 =>
      match Repeat (lit "=") (header2.length : Int) with
      | .error e => { out := out, panic := some e }
      | .ok rule2 =>
        let out := out ++ [rule1 ++ sep ++ rule2 ++ lit "\n"]
        -- fmt.Println("")
        let out := out ++ [lit "" ++ lit "\n"]
        printRows header1 map2write out

/-- The three lines `CliPrettyPrint` writes before the rows: the headers, the rules under
them, an empty line. -/
def headerLines (header1 header2 : GoString) : List GoString :=
  [header1 ++ repeatLoop (lit " ") 10 ++ header2 ++ lit "\n",
    repeatLoop (lit "=") header1.length ++ repeatLoop (lit " ") 10 ++
      repeatLoop (lit "=") header2.length ++ lit "\n",
    lit "\n"]

/-- The row `CliPrettyPrint` writes for an entry whose key fits in the first column. -/
def alignedRow (header1 : GoString) (e : GoString × GoString) : GoString :=
  e.1 ++ repeatLoop (lit " ") (header1.length + 10 - e.1.length) ++ e.2 ++ lit "\n"

/-! ## Streams, peers and predicates used to state the theorems -/

/-- The messages successfully decoded by the first `n` calls of `in.Decode`, in arrival
order. -/
def decoded (w : Wire) (n : Nat) : List MsgTunData :=
  (List.range n).filterMap fun k =>
    match w.Decode k with
    | .ok m => some m
    | .error _ => none

/-- The invariant of the statement `go processCCData(&msg)`: it has been executed once for
each decoded message that is not a heartbeat, in arrival order. -/
def StartedInv (w : Wire) (s : Tun) : Prop :=
  s.started = (decoded w s.decodes).filter fun m => decide (m.Payload ≠ hello)

/-- A command of the controller. -/
def cmdMsg : MsgTunData := { Payload := lit "ls", Tag := Tag }

/-- A stream on which the controller sends a command and then its heartbeats, and on which
every encode succeeds. -/
def wireCommandThenHello : Wire :=
  { Decode := fun k => if k = 0 then .ok cmdMsg else .ok { Payload := hello, Tag := Tag }
    Encode := fun _ _ => none }

/-- The heartbeat message. -/
def helloMsg : MsgTunData := { Payload := hello, Tag := Tag }

/-- A stream on which the first nine encodes fail and every later one succeeds. -/
def wireNineFailures : Wire :=
  { Decode := fun _ => .error "EOF"
    Encode := fun k _ => if k < 9 then some "broken pipe" else none }

/-- A stream on which every decode and every encode fails. -/
def wireDown : Wire :=
  { Decode := fun _ => .error "EOF"
    Encode := fun _ _ => some "broken pipe" }

/-- A stream on which every decode fails and every encode succeeds. -/
def wireHalfOpen : Wire :=
  { Decode := fun _ => .error "EOF"
    Encode := fun _ _ => none }

/-- Modelled from the spec: `tun.IsProxyOK` and the senders of the datagrams are not under
`src/`. A proxy address is a proxy URI, "scheme + host + port" (spec, 3), on the wire a
string of the form `socks5://<ip>:<port>` (spec, 6; the only text `StartBroadcast` sends):
a scheme without `/`, the separator `://`, and a `host:port` without `//`. -/
def IsProxyURI (a : GoString) : Prop :=
  ∃ scheme hostport : GoString,
    a = scheme ++ lit "://" ++ hostport ∧ 47 ∉ scheme ∧ Index hostport (lit "//") = none

/-- Modelled from the spec: `tun.IsProxyOK` is not under `src/`. A proxy is "OK" only if it
actually answers (spec, 4.5), and what can answer is a proxy URI: the probe succeeds only
on a proxy URI. -/
def ProbeNeedsURI (p : Peer) : Prop :=
  ∀ (k : Nat) (a : GoString), p.IsProxyOK k a = true → IsProxyURI a

/-- A peer whose datagrams are in clear and where only the proxy `socks5://10.0.0.1:1080`
answers. -/
def peerOneProxy : Peer :=
  { AESDecrypt := fun d => d
    IsProxyOK := fun _ a => decide (a = lit "socks5://10.0.0.1:1080") }

/-- A peer whose datagrams are in clear and whose probes all succeed. -/
def peerAllLive : Peer :=
  { AESDecrypt := fun d => d
    IsProxyOK := fun _ _ => true }

/-- A valid multi-byte encoding at the head of `b :: t`: its bytes `b :: ps`, which
`DecodeRune` reads whatever follows them and `EncodeRune` gives back. -/
def ValidHead (b : Nat) (t : GoString) : Prop :=
  ∃ ps rest, t = ps ++ rest ∧ (DecodeRune (b :: t)).2 = ps.length + 1 ∧
    EncodeRune (DecodeRune (b :: t)).1 = b :: ps ∧
    (∀ tl, DecodeRune (b :: (ps ++ tl)) = DecodeRune (b :: t)) ∧
    ∀ x ∈ b :: ps, x < 256

/-- The calls of `BroadcastMsg` a round owes to the interfaces `ips`: one per interface with
a non-empty broadcast address, in list order. -/
def expectedAttempts (IPbroadcastAddr : IPNet → GoString) (ips : List IPNet) :
    List (GoString × GoString) :=
  (ips.filter fun netip => decide (IPbroadcastAddr netip ≠ [])).map fun netip =>
    (lit "socks5://" ++ netip.IP ++ lit ":" ++ ProxyPort, IPbroadcastAddr netip)

/-! ## Theorems: the receive duty -/

theorem decoded_succ (w : Wire) (n : Nat) :
    decoded w (n + 1) = decoded w n ++
      (match w.Decode n with
       | .ok m => [m]
       | .error _ => []) := by
  unfold decoded
  rw [List.range_succ, List.filterMap_append]
  cases h : w.Decode n <;> simp [h]

theorem StartedInv_init (w : Wire) : StartedInv w Tun.init := by
  simp [StartedInv, Tun.init, decoded]

theorem sendHello_frame (w : Wire) (n : Nat) :
    ∀ (cnt : Int) (s : Tun), cnt.toNat = n →
      ((sendHello w cnt s).2.started = s.started ∧ (sendHello w cnt s).2.pending = s.pending ∧
        (sendHello w cnt s).2.seen = s.seen) ∧
      (sendHello w cnt s).2.decodes = s.decodes ∧
      (sendHello w cnt s).2.ctxErr = s.ctxErr ∧
      (sendHello w cnt s).2.recvExited = s.recvExited ∧
      (sendHello w cnt s).2.sendExited = s.sendExited := by
  induction n with
  | zero =>
    intro cnt s h
    have hc : ¬ cnt > 0 := by omega
    rw [sendHello]; simp [hc]
  | succ n ih =>
    intro cnt s h
    have hc : cnt > 0 := by omega
    rw [sendHello]
    simp only [hc, if_true]
    split
    · exact ih (cnt - 1)
        { s with msg := { Payload := hello, Tag := Tag },
                 err := w.Encode s.encodes { Payload := hello, Tag := Tag },
                 encodes := s.encodes + 1 } (by omega)
    · simp

theorem StartedInv_step (w : Wire) (s : Tun) (e : Event) (h : StartedInv w s) :
    StartedInv w (step w s e) := by
  cases e with
  | recv =>
    simp only [step, recvStep]
    split
    · exact h
    · split
      · exact h
      · split
        · rename_i e he
          simp only [StartedInv] at h ⊢
          simp [decoded_succ, he, h]
        · rename_i m hm
          simp only [StartedInv] at h ⊢
          split
          · rename_i hp
            simp [decoded_succ, hm, h, hp]
          · rename_i hp
            simp [decoded_succ, hm, h, hp]
  | send =>
    simp only [step, sendStep]
    have hf := sendHello_frame w _ 10 s rfl
    split
    · exact h
    · split
      · exact h
      · split
        · simp only [StartedInv] at h ⊢
          simp [hf.1.1, hf.2.1, h]
        · simp only [StartedInv] at h ⊢
          simp [hf.1.1, hf.2.1, h]
  | cancel =>
    simp only [step, cancelStep]
    split
    · exact h
    · exact h
  | process =>
    simp only [step, processStep]
    split
    · exact h
    · exact h

theorem StartedInv_run (w : Wire) (evs : List Event) :
    ∀ s : Tun, StartedInv w s → StartedInv w (run w evs s) := by
  induction evs with
  | nil => intro s h; exact h
  | cons e evs ih =>
    intro s h
    exact ih _ (StartedInv_step w s e h)

theorem recvStep_progress (w : Wire) (s : Tun) (m : MsgTunData) (hx : s.recvExited = false)
    (hc : s.ctxErr = none) (hd : w.Decode s.decodes = .ok m) :
    (recvStep w s).recvExited = false ∧ (recvStep w s).ctxErr = none ∧
      (recvStep w s).decodes = s.decodes + 1 := by
  simp only [recvStep, hx, hc, hd]
  simp only [Bool.false_eq_true, if_false, ne_eq, not_true_eq_false]
  split <;> exact ⟨rfl, rfl, rfl⟩

theorem run_recv_progress (w : Wire) (n : Nat) :
    ∀ s : Tun, s.recvExited = false → s.ctxErr = none →
      (∀ k, k < n → ∃ m, w.Decode (s.decodes + k) = .ok m) →
      (run w (List.replicate n Event.recv) s).decodes = s.decodes + n := by
  induction n with
  | zero => intro s _ _ _; rfl
  | succ n ih =>
    intro s hx hc hd
    obtain ⟨m, hm⟩ := hd 0 (by omega)
    have h1 := recvStep_progress w s m hx hc (by simpa using hm)
    have h2 := ih (recvStep w s) h1.1 h1.2.1 (fun k hk => by
      obtain ⟨m', hm'⟩ := hd (k + 1) (by omega)
      exact ⟨m', by rw [h1.2.2, ← hm']; congr 1; omega⟩)
    simp only [run, List.replicate_succ, List.foldl_cons, step] at h2 ⊢
    rw [h2, h1.2.2]
    omega

theorem cmd_ne_hello : (lit "ls" : GoString) ≠ hello := by decide

/-- C1. `processCCData` can read the heartbeat. The statement `go processCCData(&msg)` is
executed exactly once for each decoded message whose `Payload` is not `"hello"`, in arrival
order, and `n` passes of the receive loop over `n` decodable messages decode all of them;
but the goroutine is given the address of the one variable `msg`. When the controller sends
a command and then a heartbeat, and the second pass of the receive loop runs before the
started goroutine reads, the message `processCCData` reads has `Payload == "hello"` and the
command is read by no one; the same happens when a pass of the heartbeat loop, which writes
`msg.Payload = "hello"`, runs before the read. -/
theorem processCCData_reads_heartbeat :
    (∀ (w : Wire) (evs : List Event),
        (run w evs Tun.init).started =
          (decoded w (run w evs Tun.init).decodes).filter
            (fun m => decide (m.Payload ≠ hello))) ∧
      (∀ (w : Wire) (n : Nat), (∀ k, k < n → ∃ m, w.Decode k = .ok m) →
        (run w (List.replicate n Event.recv) Tun.init).decodes = n) ∧
      ((run wireCommandThenHello [Event.recv, Event.recv, Event.process] Tun.init).started
          = [cmdMsg] ∧
        (run wireCommandThenHello [Event.recv, Event.recv, Event.process] Tun.init).seen
          = [{ Payload := hello, Tag := Tag }]) ∧
      ((run wireCommandThenHello [Event.recv, Event.send, Event.process] Tun.init).started
          = [cmdMsg] ∧
        (run wireCommandThenHello [Event.recv, Event.send, Event.process] Tun.init).seen
          = [{ Payload := hello, Tag := Tag }]) := by
  refine ⟨fun w evs => StartedInv_run w evs Tun.init (StartedInv_init w), ?_, ?_, ?_⟩
  · intro w n h
    have := run_recv_progress w n Tun.init rfl rfl (fun k hk => by
      obtain ⟨m, hm⟩ := h k hk
      exact ⟨m, by simpa [Tun.init] using hm⟩)
    simpa [Tun.init] using this
  · constructor <;>
      simp [run, step, recvStep, processStep, Tun.init, wireCommandThenHello, cmdMsg,
        cmd_ne_hello]
  · constructor <;>
      simp [run, step, recvStep, sendStep, sendHello, processStep, Tun.init,
        wireCommandThenHello, cmdMsg, cmd_ne_hello]

/-! ## Theorems: `ConnectCC` -/

/-- C2. `ConnectCC` does not report a bad status: whenever `h2.Connect` succeeds, whatever
the status code of the response, `ConnectCC` returns the connection with `err == nil`; so
it does at status 503. -/
theorem ConnectCC_bad_status_nil_err :
    (∀ (c : Nat) (statusCode : Int),
        ConnectCC (.ok (c, statusCode)) = { conn := some c, err := none }) ∧
      (ConnectCC (.ok (1, 503))).err = none := by
  refine ⟨?_, ?_⟩
  · intro c statusCode
    simp [ConnectCC]
  · simp [ConnectCC]

/-! ## Theorems: the heartbeat duty -/

theorem sendHello_attempts (w : Wire) (n : Nat) :
    ∀ (cnt : Int) (s : Tun), cnt.toNat = n →
      ∃ k : Nat, (sendHello w cnt s).2.encodes = s.encodes + k ∧ k ≤ n ∧
        (∀ i, i + 1 < k → w.Encode (s.encodes + i) helloMsg ≠ none) ∧
        ((sendHello w cnt s).1 = true →
          0 < k ∧ w.Encode (s.encodes + (k - 1)) helloMsg = none ∧
            (sendHello w cnt s).2.err = none) ∧
        ((sendHello w cnt s).1 = false →
          k = n ∧ ∀ i, i < k → w.Encode (s.encodes + i) helloMsg ≠ none) := by
  induction n with
  | zero =>
    intro cnt s h
    have hc : ¬ cnt > 0 := by omega
    refine ⟨0, ?_⟩
    rw [sendHello]
    simp [hc]
  | succ n ih =>
    intro cnt s h
    have hc : cnt > 0 := by omega
    rw [sendHello]
    simp only [hc, if_true]
    split
    · rename_i hfail
      obtain ⟨k, h1, h2, h3, h4, h5⟩ := ih (cnt - 1)
        { s with msg := { Payload := hello, Tag := Tag },
                 err := w.Encode s.encodes { Payload := hello, Tag := Tag },
                 encodes := s.encodes + 1 } (by omega)
      simp only at h1 h3 h4 h5 hfail
      refine ⟨k + 1, ?_, by omega, ?_, ?_, ?_⟩
      · rw [h1]; omega
      · intro i hi
        cases i with
        | zero => simpa [helloMsg] using hfail
        | succ j =>
          have := h3 j (by omega)
          rwa [show s.encodes + (j + 1) = s.encodes + 1 + j by omega]
      · intro ht
        obtain ⟨hk, he, herr⟩ := h4 ht
        refine ⟨by omega, ?_, herr⟩
        rw [show s.encodes + (k + 1 - 1) = s.encodes + 1 + (k - 1) by omega]
        exact he
      · intro hf
        obtain ⟨hk, hall⟩ := h5 hf
        refine ⟨by omega, ?_⟩
        intro i hi
        cases i with
        | zero => simpa [helloMsg] using hfail
        | succ j =>
          have := hall j (by omega)
          rwa [show s.encodes + (j + 1) = s.encodes + 1 + j by omega]
    · rename_i hok
      simp only [ne_eq, not_not] at hok
      refine ⟨1, rfl, by omega, ?_, ?_, ?_⟩
      · intro i hi; omega
      · intro _
        exact ⟨by omega, by simpa [helloMsg] using hok, hok⟩
      · intro hf; simp at hf

theorem sendHello_true_iff (w : Wire) (cnt : Int) (s : Tun) :
    (sendHello w cnt s).1 = true ↔
      ∃ i : Nat, i < cnt.toNat ∧ w.Encode (s.encodes + i) helloMsg = none := by
  obtain ⟨k, _, h2, _, h4, h5⟩ := sendHello_attempts w cnt.toNat cnt s rfl
  constructor
  · intro ht
    obtain ⟨hk, he, _⟩ := h4 ht
    exact ⟨k - 1, by omega, he⟩
  · rintro ⟨i, hi, he⟩
    by_contra hne
    have hf : (sendHello w cnt s).1 = false := by simpa using hne
    obtain ⟨hk, hall⟩ := h5 hf
    exact hall i (by omega) he

/-- C4. Heartbeat retry burst: for every stream and every `cnt >= 0`, `sendHello(cnt)` makes
`k <= cnt` encode attempts, every attempt before the last one fails, a `true` result means
that the last attempt succeeded and a `false` result that all `cnt` attempts were made (and
failed); it returns `true` if and only if one of the first `cnt` attempts succeeds. In the
heartbeat loop (`cnt = 10`): nine failures followed by a success give `true` and the loop
goes on; ten failures give `false` and the loop is left. -/
theorem sendHello_retry_burst (w : Wire) (s : Tun) (cnt : Int) (h : 0 ≤ cnt) :
    (∃ k : Nat, (sendHello w cnt s).2.encodes = s.encodes + k ∧ (k : Int) ≤ cnt ∧
        (∀ i, i + 1 < k → w.Encode (s.encodes + i) helloMsg ≠ none) ∧
        ((sendHello w cnt s).1 = true → 0 < k ∧ w.Encode (s.encodes + (k - 1)) helloMsg = none) ∧
        ((sendHello w cnt s).1 = false →
          (k : Int) = cnt ∧ ∀ i, i < k → w.Encode (s.encodes + i) helloMsg ≠ none)) ∧
      ((sendHello w cnt s).1 = true ↔
        ∃ i : Nat, (i : Int) < cnt ∧ w.Encode (s.encodes + i) helloMsg = none) ∧
      (∀ t : Tun, t.sendExited = false → t.ctxErr = none →
        (∀ i, i < 9 → w.Encode (t.encodes + i) helloMsg ≠ none) →
        w.Encode (t.encodes + 9) helloMsg = none →
        (sendHello w 10 t).1 = true ∧ (sendStep w t).sendExited = false) ∧
      (∀ t : Tun, t.sendExited = false → t.ctxErr = none →
        (∀ i, i < 10 → w.Encode (t.encodes + i) helloMsg ≠ none) →
        (sendHello w 10 t).1 = false ∧ (sendStep w t).sendExited = true) := by
  refine ⟨?_, ?_, ?_, ?_⟩
  · obtain ⟨k, h1, h2, h3, h4, h5⟩ := sendHello_attempts w cnt.toNat cnt s rfl
    refine ⟨k, h1, by omega, h3, fun ht => ⟨(h4 ht).1, (h4 ht).2.1⟩, fun hf => ?_⟩
    obtain ⟨hk, hall⟩ := h5 hf
    exact ⟨by omega, hall⟩
  · rw [sendHello_true_iff]
    constructor
    · rintro ⟨i, hi, he⟩
      exact ⟨i, by omega, he⟩
    · rintro ⟨i, hi, he⟩
      exact ⟨i, by omega, he⟩
  · intro t hx hc hfail hok
    have ht : (sendHello w 10 t).1 = true :=
      (sendHello_true_iff w 10 t).2 ⟨9, by decide, hok⟩
    refine ⟨ht, ?_⟩
    have hfr := (sendHello_frame w 10 10 t rfl).2.2.2.2
    simp [sendStep, hx, hc, ht, hfr]
  · intro t hx hc hfail
    have hf : (sendHello w 10 t).1 = false := by
      by_contra hne
      have ht : (sendHello w 10 t).1 = true := by simpa using hne
      obtain ⟨i, hi, he⟩ := (sendHello_true_iff w 10 t).1 ht
      exact hfail i (by simpa using hi) he
    refine ⟨hf, ?_⟩
    simp [sendStep, hx, hc, hf]

/-- Witness of C4 at `cnt = 10`, on the stream whose first nine encodes fail. -/
theorem sendHello_retry_burst_witness :
    (0 : Int) ≤ 10 ∧
      ((sendHello wireNineFailures 10 Tun.init).1 = true ↔
        ∃ i : Nat, (i : Int) < 10 ∧
          wireNineFailures.Encode (Tun.init.encodes + i) helloMsg = none) :=
  ⟨by decide, (sendHello_retry_burst wireNineFailures Tun.init 10 (by decide)).2.1⟩

/-! ## Theorems: closing -/

theorem cancelStep_err (s : Tun) : (cancelStep s).err = s.err := by
  unfold cancelStep
  split <;> rfl

theorem closingError_ne_none (s : Tun) : closingError s ≠ none := by
  unfold closingError
  cases hc : s.ctxErr with
  | some c => simp
  | none =>
    cases he : s.err with
    | some e => simp
    | none => simp

/-- C3. `CCMsgTun` returns the outcome of `H2Json.Close()`, not the composite error: in every
state in which the loops are left, lines 177-183 compute a non-nil composite error, and the
value returned to the caller is what `Close` returned, `nil` when closing succeeds. On a
stream whose encodes all fail, the heartbeat loop is left after one pass, the composite
error is `"broken pipe"`, and with a successful `Close` the caller receives `nil`. -/
theorem CCMsgTun_returns_close_outcome :
    (∀ (close : Option String) (s : Tun),
        closingError s ≠ none ∧ CCMsgTunReturn close s = close) ∧
      (run wireDown [Event.send] Tun.init).sendExited = true ∧
      closingError (run wireDown [Event.send] Tun.init) = some "broken pipe" ∧
      CCMsgTunReturn none (run wireDown [Event.send] Tun.init) = none := by
  refine ⟨fun close s => ⟨closingError_ne_none s, ?_⟩, ?_, ?_, ?_⟩
  · simp [CCMsgTunReturn, CCMsgTunExit, cancelStep_err]
  · simp [run, step, sendStep, sendHello, Tun.init, wireDown]
  · simp [run, step, sendStep, sendHello, Tun.init, wireDown, closingError]
  · simp [CCMsgTunReturn, CCMsgTunExit, cancelStep_err]

/-! ## Theorems: decode failure -/

theorem recvStep_exited (w : Wire) (s : Tun) (h : s.recvExited = true) : recvStep w s = s := by
  simp [recvStep, h]

theorem step_recvExited (w : Wire) (s : Tun) (e : Event) (h : s.recvExited = true) :
    (step w s e).recvExited = true ∧ (step w s e).decodes = s.decodes := by
  cases e with
  | recv => simp [step, recvStep_exited w s h, h]
  | send =>
    have hf := sendHello_frame w 10 10 s rfl
    simp only [step, sendStep]
    split
    · exact ⟨h, rfl⟩
    · split
      · exact ⟨h, rfl⟩
      · split
        · exact ⟨by simpa [h] using hf.2.2.2.1, hf.2.1⟩
        · exact ⟨by simpa [h] using hf.2.2.2.1, hf.2.1⟩
  | cancel =>
    simp only [step, cancelStep]
    split
    · exact ⟨h, rfl⟩
    · exact ⟨h, rfl⟩
  | process =>
    simp only [step, processStep]
    split
    · exact ⟨h, rfl⟩
    · exact ⟨h, rfl⟩

theorem run_recvExited (w : Wire) (evs : List Event) :
    ∀ s : Tun, s.recvExited = true →
      (run w evs s).recvExited = true ∧ (run w evs s).decodes = s.decodes := by
  induction evs with
  | nil => intro s h; exact ⟨h, rfl⟩
  | cons e evs ih =>
    intro s h
    have h1 := step_recvExited w s e h
    have h2 := ih (step w s e) h1.1
    exact ⟨h2.1, h2.2.trans h1.2⟩

theorem sendStep_exit_cause (w : Wire) (t : Tun) (h : (sendStep w t).sendExited = true) :
    t.sendExited = true ∨ t.ctxErr ≠ none ∨
      ∀ i, i < 10 → w.Encode (t.encodes + i) helloMsg ≠ none := by
  by_cases hx : t.sendExited = true
  · exact Or.inl hx
  · by_cases hc : t.ctxErr = none
    · right; right
      intro i hi he
      have ht : (sendHello w 10 t).1 = true := (sendHello_true_iff w 10 t).2 ⟨i, by simpa using hi, he⟩
      have hfr := (sendHello_frame w 10 10 t rfl).2.2.2.2
      simp [sendStep, hx, hc, ht, hfr] at h
    · exact Or.inr (Or.inl hc)

theorem sendStep_wireHalfOpen (t : Tun) (hx : t.sendExited = false) (hc : t.ctxErr = none) :
    (sendStep wireHalfOpen t).sendExited = false ∧ (sendStep wireHalfOpen t).ctxErr = none := by
  have ht : (sendHello wireHalfOpen 10 t).1 = true :=
    (sendHello_true_iff wireHalfOpen 10 t).2 ⟨0, by decide, rfl⟩
  have hfr := sendHello_frame wireHalfOpen 10 10 t rfl
  simp [sendStep, hx, hc, ht, hfr.2.2.2.2, hfr.2.2.1]

theorem run_sends_wireHalfOpen (n : Nat) :
    ∀ t : Tun, t.sendExited = false → t.ctxErr = none →
      (run wireHalfOpen (List.replicate n Event.send) t).sendExited = false := by
  induction n with
  | zero => intro t hx _; simpa [run] using hx
  | succ n ih =>
    intro t hx hc
    have h1 := sendStep_wireHalfOpen t hx hc
    simpa [run, List.replicate_succ, step] using ih (sendStep wireHalfOpen t) h1.1 h1.2

/-- C5. A decode failure does not end the session. On a stream whose first decode fails
while every encode succeeds, the receive loop is left at its first pass with the decode
error in `err`; the next pass of the heartbeat loop overwrites `err` with `nil` and goes on,
and however many passes of the heartbeat loop follow, the heartbeat loop is never left, so
lines 177-183 are never reached. On the sibling path, a burst of ten failed encodes, the
heartbeat loop is left at once. -/
theorem decode_failure_leaves_session_open :
    ((run wireHalfOpen [Event.recv] Tun.init).recvExited = true ∧
        (run wireHalfOpen [Event.recv] Tun.init).err = some "EOF") ∧
      ((run wireHalfOpen [Event.recv, Event.send] Tun.init).err = none ∧
        (run wireHalfOpen [Event.recv, Event.send] Tun.init).sendExited = false) ∧
      (¬ ∃ n : Nat,
        (run wireHalfOpen (List.replicate n Event.send)
          (run wireHalfOpen [Event.recv] Tun.init)).sendExited = true) ∧
      (run wireDown [Event.send] Tun.init).sendExited = true := by
  refine ⟨⟨by simp [run, step, recvStep, Tun.init, wireHalfOpen],
    by simp [run, step, recvStep, Tun.init, wireHalfOpen]⟩,
    ⟨by simp [run, step, recvStep, sendStep, sendHello, Tun.init, wireHalfOpen],
      by simp [run, step, recvStep, sendStep, sendHello, Tun.init, wireHalfOpen]⟩, ?_,
    by simp [run, step, sendStep, sendHello, Tun.init, wireDown]⟩
  rintro ⟨n, hn⟩
  have := run_sends_wireHalfOpen n (run wireHalfOpen [Event.recv] Tun.init)
    (by simp [run, step, recvStep, Tun.init, wireHalfOpen])
    (by simp [run, step, recvStep, Tun.init, wireHalfOpen])
  rw [this] at hn
  exact Bool.noConfusion hn

/-- What the code does on a decode failure, for every stream: the error is stored in `err`,
the receive loop is left, and in every continuation of the run no further decode is
attempted; that pass neither cancels the context nor leaves the heartbeat loop. A pass of
the heartbeat loop leaves it only if the context is cancelled or all ten encodes of the pass
fail. -/
theorem decode_failure_stops_receiving (w : Wire) (s : Tun) (e : String)
    (hrun : s.recvExited = false) (hctx : s.ctxErr = none)
    (hdec : w.Decode s.decodes = .error e) :
    (recvStep w s).recvExited = true ∧ (recvStep w s).err = some e ∧
      (recvStep w s).decodes = s.decodes + 1 ∧
      (recvStep w s).ctxErr = none ∧ (recvStep w s).sendExited = s.sendExited ∧
      (∀ evs : List Event,
        (run w evs (recvStep w s)).recvExited = true ∧
          (run w evs (recvStep w s)).decodes = s.decodes + 1) ∧
      (∀ t : Tun, (sendStep w t).sendExited = true →
        t.sendExited = true ∨ t.ctxErr ≠ none ∨
          ∀ i, i < 10 → w.Encode (t.encodes + i) helloMsg ≠ none) := by
  have h1 : recvStep w s =
      { s with err := some e, decodes := s.decodes + 1, recvExited := true } := by
    simp [recvStep, hrun, hctx, hdec]
  refine ⟨by rw [h1], by rw [h1], by rw [h1], by rw [h1]; exact hctx, by rw [h1], ?_, ?_⟩
  · intro evs
    have h2 := run_recvExited w evs (recvStep w s) (by rw [h1])
    refine ⟨h2.1, ?_⟩
    rw [h2.2, h1]
  · intro t ht
    exact sendStep_exit_cause w t ht

/-- An instance of `decode_failure_stops_receiving`: the first pass of the receive loop on
the half-open stream. -/
theorem decode_failure_stops_receiving_witness :
    (recvStep wireHalfOpen Tun.init).recvExited = true ∧
      (recvStep wireHalfOpen Tun.init).err = some "EOF" ∧
      (recvStep wireHalfOpen Tun.init).decodes = Tun.init.decodes + 1 :=
  have h := decode_failure_stops_receiving wireHalfOpen Tun.init "EOF" rfl rfl rfl
  ⟨h.1, h.2.1, h.2.2.1⟩

/-! ## Theorems: the discovery listener -/

theorem listenStep_undecryptable (p : Peer) (datagram : GoString) (s : Listener)
    (hdec : p.AESDecrypt datagram = []) : listenStep p (.ok datagram) s = s := by
  simp [listenStep, hdec]

theorem listenStep_working (p : Peer) (datagram : GoString) (s : Listener)
    (hdec : p.AESDecrypt datagram ≠ [])
    (hset : s.AgentProxy ≠ []) (hlive : p.IsProxyOK s.probes s.AgentProxy = true) :
    listenStep p (.ok datagram) s = { s with probes := s.probes + 1 } := by
  simp [listenStep, hdec, hset, hlive]

theorem listenStep_rejected (p : Peer) (datagram : GoString) (s : Listener)
    (hdec : p.AESDecrypt datagram ≠ [])
    (hfree : s.AgentProxy = [] ∨ p.IsProxyOK s.probes s.AgentProxy = false)
    (hbad : p.IsProxyOK (candidateProbe s) (p.AESDecrypt datagram) = false) :
    listenStep p (.ok datagram) s = { s with probes := candidateProbe s + 1 } := by
  by_cases hset : s.AgentProxy = []
  · simp only [candidateProbe, hset, ne_eq, not_true_eq_false, if_false] at hbad
    simp [listenStep, hdec, hset, hbad, candidateProbe]
  · have hl : p.IsProxyOK s.probes s.AgentProxy = false := by
      rcases hfree with h | h
      · exact absurd h hset
      · exact h
    simp only [candidateProbe, hset, ne_eq, not_false_eq_true, if_true] at hbad
    simp [listenStep, hdec, hset, hbad, hl, candidateProbe]

theorem listenStep_adopted (p : Peer) (datagram : GoString) (s : Listener)
    (hdec : p.AESDecrypt datagram ≠ [])
    (hfree : s.AgentProxy = [] ∨ p.IsProxyOK s.probes s.AgentProxy = false)
    (hok : p.IsProxyOK (candidateProbe s) (p.AESDecrypt datagram) = true) :
    listenStep p (.ok datagram) s =
      if (Split (p.AESDecrypt datagram) (lit "//")).length < 2 then
        { AgentProxy := p.AESDecrypt datagram, spawned := s.spawned,
          probes := candidateProbe s + 1 }
      else
        { AgentProxy := p.AESDecrypt datagram,
          spawned := s.spawned ++
            [Spawn.TCPFwd ((Split (p.AESDecrypt datagram) (lit "//")).getD 1 []) ProxyPort,
              Spawn.StartBroadcast false],
          probes := candidateProbe s + 1 } := by
  by_cases hset : s.AgentProxy = []
  · simp only [candidateProbe, hset, ne_eq, not_true_eq_false, if_false] at hok
    simp [listenStep, hdec, hset, hok, candidateProbe]
  · have hl : p.IsProxyOK s.probes s.AgentProxy = false := by
      rcases hfree with h | h
      · exact absurd h hset
      · exact h
    simp only [candidateProbe, hset, ne_eq, not_false_eq_true, if_true] at hok
    simp [listenStep, hdec, hset, hok, hl, candidateProbe]

theorem listenStep_cases (p : Peer) (s : Listener) :
    (s.AgentProxy ≠ [] ∧ p.IsProxyOK s.probes s.AgentProxy = true) ∨
      (s.AgentProxy = [] ∨ p.IsProxyOK s.probes s.AgentProxy = false) := by
  by_cases hset : s.AgentProxy = []
  · exact Or.inr (Or.inl hset)
  · cases h : p.IsProxyOK s.probes s.AgentProxy
    · exact Or.inr (Or.inr rfl)
    · exact Or.inl ⟨hset, rfl⟩

/-- C6. Discovery idempotence: in every pass of the listener in which `AgentProxy` is not
empty and the probe `IsProxyOK(AgentProxy)` succeeds, whatever is received (a read error, or
any datagram, also one naming another live proxy), `AgentProxy` is unchanged and no
goroutine (TCP-forward bridge, advertiser) is started. -/
theorem listener_keeps_live_proxy (p : Peer) (rd : Except String GoString) (s : Listener)
    (hset : s.AgentProxy ≠ []) (hlive : p.IsProxyOK s.probes s.AgentProxy = true) :
    (listenStep p rd s).AgentProxy = s.AgentProxy ∧
      (listenStep p rd s).spawned = s.spawned := by
  cases rd with
  | error e => exact ⟨rfl, rfl⟩
  | ok datagram =>
    by_cases hdec : p.AESDecrypt datagram = []
    · rw [listenStep_undecryptable p datagram s hdec]
      exact ⟨rfl, rfl⟩
    · rw [listenStep_working p datagram s hdec hset hlive]
      exact ⟨rfl, rfl⟩

/-- Witness of C6: a live proxy is held and an advertisement for another live proxy
arrives. -/
theorem listener_keeps_live_proxy_witness :
    (listenStep peerAllLive (.ok (lit "socks5://10.0.0.2:1080"))
        { AgentProxy := lit "socks5://10.0.0.1:1080", spawned := [], probes := 0 }).AgentProxy
        = lit "socks5://10.0.0.1:1080" ∧
      (listenStep peerAllLive (.ok (lit "socks5://10.0.0.2:1080"))
        { AgentProxy := lit "socks5://10.0.0.1:1080", spawned := [], probes := 0 }).spawned
        = [] :=
  listener_keeps_live_proxy peerAllLive (.ok (lit "socks5://10.0.0.2:1080"))
    { AgentProxy := lit "socks5://10.0.0.1:1080", spawned := [], probes := 0 }
    (by decide) rfl

/-- C7. Adoption gate: a pass of the listener changes `AgentProxy` only if a datagram was
read that decrypts to a non-empty string which passes the liveness probe made on it in that
pass, and the new value is that string; a datagram that decrypts to the empty string, or
whose decrypted address fails the probe, leaves `AgentProxy` unchanged and starts no
goroutine. -/
theorem listener_adoption_gate (p : Peer) (rd : Except String GoString) (s : Listener) :
    ((listenStep p rd s).AgentProxy ≠ s.AgentProxy →
        ∃ datagram, rd = .ok datagram ∧ p.AESDecrypt datagram ≠ [] ∧
          p.IsProxyOK (candidateProbe s) (p.AESDecrypt datagram) = true ∧
          (listenStep p rd s).AgentProxy = p.AESDecrypt datagram) ∧
      (∀ datagram, rd = .ok datagram →
        (p.AESDecrypt datagram = [] ∨
          p.IsProxyOK (candidateProbe s) (p.AESDecrypt datagram) = false) →
        (listenStep p rd s).AgentProxy = s.AgentProxy ∧
          (listenStep p rd s).spawned = s.spawned) := by
  cases rd with
  | error e =>
    refine ⟨fun h => absurd rfl h, fun d hd => ?_⟩
    cases hd
  | ok datagram =>
    by_cases hdec : p.AESDecrypt datagram = []
    · rw [listenStep_undecryptable p datagram s hdec]
      exact ⟨fun h => absurd rfl h, fun _ _ _ => ⟨rfl, rfl⟩⟩
    · rcases listenStep_cases p s with ⟨hset, hlive⟩ | hfree
      · rw [listenStep_working p datagram s hdec hset hlive]
        exact ⟨fun h => absurd rfl h, fun _ _ _ => ⟨rfl, rfl⟩⟩
      · cases hok : p.IsProxyOK (candidateProbe s) (p.AESDecrypt datagram)
        · rw [listenStep_rejected p datagram s hdec hfree hok]
          exact ⟨fun h => absurd rfl h, fun _ _ _ => ⟨rfl, rfl⟩⟩
        · rw [listenStep_adopted p datagram s hdec hfree hok]
          constructor
          · intro _
            refine ⟨datagram, rfl, hdec, hok, ?_⟩
            split <;> rfl
          · intro d hd hor
            cases hd
            rcases hor with h | h
            · exact absurd h hdec
            · rw [hok] at h; exact Bool.noConfusion h

/-! ## Theorems: adoption and propagation -/

theorem lit_slashes : lit "//" = [47, 47] := by decide

theorem lit_colon : lit ":" = [58] := by decide

theorem lit_colon_slashes : lit "://" = [58, 47, 47] := by decide

theorem Index_scheme (scheme rest : GoString) (h : 47 ∉ scheme) :
    Index (scheme ++ 58 :: 47 :: 47 :: rest) [47, 47] = some (scheme.length + 1) := by
  induction scheme with
  | nil =>
    rw [List.nil_append, Index]
    have h1 : List.isPrefixOf [47, 47] (58 :: 47 :: 47 :: rest) = false := by
      simp [List.isPrefixOf]
    rw [h1, Index]
    simp [List.isPrefixOf]
  | cons c t ih =>
    have hc : c ≠ 47 := fun hc => h (by simp [hc])
    have ht : 47 ∉ t := fun ht => h (by simp [ht])
    rw [List.cons_append, Index]
    have h1 : List.isPrefixOf [47, 47] (c :: (t ++ 58 :: 47 :: 47 :: rest)) = false := by
      simp [List.isPrefixOf, Ne.symm hc]
    rw [h1]
    simp [ih ht]

theorem Split_scheme (scheme hostport : GoString) (h : 47 ∉ scheme)
    (hrest : Index hostport (lit "//") = none) :
    Split (scheme ++ lit "://" ++ hostport) (lit "//") = [scheme ++ lit ":", hostport] := by
  rw [lit_slashes] at hrest ⊢
  rw [lit_colon_slashes, lit_colon]
  have hs : scheme ++ [58, 47, 47] ++ hostport = scheme ++ 58 :: 47 :: 47 :: hostport := by simp
  rw [hs]
  unfold Split
  have hlen : (scheme ++ 58 :: 47 :: 47 :: hostport).length
      = (scheme.length + hostport.length + 1) + 1 + 1 := by
    simp; omega
  rw [hlen, splitLoop, Index_scheme scheme hostport h]
  simp only [List.length_cons, List.length_nil]
  have htake : List.take (scheme.length + 1) (scheme ++ 58 :: 47 :: 47 :: hostport)
      = scheme ++ [58] := by
    rw [List.take_append_eq_append_take]
    simp
  have hdrop : List.drop (scheme.length + 1 + (0 + 1 + 1)) (scheme ++ 58 :: 47 :: 47 :: hostport)
      = hostport := by
    rw [show scheme.length + 1 + (0 + 1 + 1) = scheme.length + 3 by omega,
      ← List.drop_drop, List.drop_left]
    rfl
  rw [htake, hdrop, splitLoop, hrest]

theorem Split_nil (sep : GoString) : Split [] sep = [[]] := rfl

theorem Index_bound (sep : GoString) :
    ∀ (s : GoString) (m : Nat), Index s sep = some m → m + sep.length ≤ s.length := by
  intro s
  induction s with
  | nil =>
    intro m h
    rw [Index] at h
    split at h
    · rename_i hp
      cases h
      have := (List.isPrefixOf_iff_prefix.1 hp).length_le
      simpa using this
    · cases h
  | cons c t ih =>
    intro m h
    rw [Index] at h
    split at h
    · rename_i hp
      cases h
      have := (List.isPrefixOf_iff_prefix.1 hp).length_le
      simpa using this
    · cases hi : Index t sep with
      | none => simp [hi] at h
      | some k =>
        simp only [hi, Option.map_some', Option.some.injEq] at h
        have := ih k hi
        simp only [List.length_cons]
        omega

/-- The bound on the number of cuts in `Split` is never reached: one more cut allowed
changes nothing. -/
theorem splitLoop_bound (sep : GoString) (hsep : sep ≠ []) (n : Nat) :
    ∀ s : GoString, s.length ≤ n → splitLoop sep (n + 1) s = splitLoop sep n s := by
  have hpos : 0 < sep.length := List.length_pos.2 hsep
  induction n with
  | zero =>
    intro s hs
    have : s = [] := List.eq_nil_of_length_eq_zero (by omega)
    subst this
    cases hi : Index [] sep with
    | none => simp [splitLoop, hi]
    | some m =>
      have := Index_bound sep [] m hi
      simp only [List.length_nil] at this
      omega
  | succ n ih =>
    intro s hs
    rw [splitLoop, splitLoop]
    cases hi : Index s sep with
    | none => rfl
    | some m =>
      have hb := Index_bound sep s m hi
      simp only
      rw [ih]
      simp only [List.length_drop]
      omega

/-- The order of lines 47-56: `AgentProxy` is assigned before the guard on the result of
`strings.Split`. With a probe that answers for the address `10.0.0.1:1080`, which holds no
`//` (`ProbeNeedsURI` excludes such a probe), the address is stored in `AgentProxy` and
neither the TCP-forward bridge nor the advertiser is started. -/
theorem adoption_precedes_separator_guard :
    peerAllLive.IsProxyOK
        (candidateProbe { AgentProxy := [], spawned := [], probes := 0 })
        (peerAllLive.AESDecrypt (lit "10.0.0.1:1080")) = true ∧
      (listenStep peerAllLive (.ok (lit "10.0.0.1:1080"))
        { AgentProxy := [], spawned := [], probes := 0 }).AgentProxy = lit "10.0.0.1:1080" ∧
      (listenStep peerAllLive (.ok (lit "10.0.0.1:1080"))
        { AgentProxy := [], spawned := [], probes := 0 }).spawned = [] := by
  refine ⟨rfl, ?_, ?_⟩ <;> decide

/-- What a pass does with a candidate that passes the probe while no live proxy is held,
for every probe: with the separator `//` in the candidate (`strings.Split` gives at least
two parts) the candidate is stored, `TCPFwd` is started on the second part and `ProxyPort`,
and `StartBroadcast(false)` is started; a non-empty candidate without `//` is stored and
nothing is started. For a candidate `<scheme>://<host:port>` the second part is
`host:port`. -/
theorem listenStep_adoption_cases (p : Peer) (datagram : GoString) (s : Listener)
    (hfree : s.AgentProxy = [] ∨ p.IsProxyOK s.probes s.AgentProxy = false)
    (hok : p.IsProxyOK (candidateProbe s) (p.AESDecrypt datagram) = true) :
    (2 ≤ (Split (p.AESDecrypt datagram) (lit "//")).length →
        (listenStep p (.ok datagram) s).AgentProxy = p.AESDecrypt datagram ∧
          (listenStep p (.ok datagram) s).spawned = s.spawned ++
            [Spawn.TCPFwd ((Split (p.AESDecrypt datagram) (lit "//")).getD 1 []) ProxyPort,
              Spawn.StartBroadcast false]) ∧
      (p.AESDecrypt datagram ≠ [] → (Split (p.AESDecrypt datagram) (lit "//")).length < 2 →
        (listenStep p (.ok datagram) s).AgentProxy = p.AESDecrypt datagram ∧
          (listenStep p (.ok datagram) s).spawned = s.spawned) ∧
      (∀ scheme hostport : GoString, 47 ∉ scheme → Index hostport (lit "//") = none →
        p.AESDecrypt datagram = scheme ++ lit "://" ++ hostport →
        (Split (p.AESDecrypt datagram) (lit "//")).getD 1 [] = hostport) := by
  refine ⟨?_, ?_, ?_⟩
  · intro hlen
    have hdec : p.AESDecrypt datagram ≠ [] := by
      intro h0
      rw [h0, Split_nil] at hlen
      simp at hlen
    rw [listenStep_adopted p datagram s hdec hfree hok]
    have : ¬ (Split (p.AESDecrypt datagram) (lit "//")).length < 2 := by omega
    simp [this]
  · intro hdec hlen
    rw [listenStep_adopted p datagram s hdec hfree hok]
    simp [hlen]
  · intro scheme hostport hs hh hc
    rw [hc, Split_scheme scheme hostport hs hh]
    rfl

theorem adoption_of_proxy_URI (p : Peer) (datagram : GoString) (s : Listener)
    (hprobe : ProbeNeedsURI p)
    (hfree : s.AgentProxy = [] ∨ p.IsProxyOK s.probes s.AgentProxy = false)
    (hok : p.IsProxyOK (candidateProbe s) (p.AESDecrypt datagram) = true) :
    ∃ scheme hostport : GoString,
      p.AESDecrypt datagram = scheme ++ lit "://" ++ hostport ∧
        (listenStep p (.ok datagram) s).AgentProxy = p.AESDecrypt datagram ∧
        (listenStep p (.ok datagram) s).spawned = s.spawned ++
          [Spawn.TCPFwd hostport ProxyPort, Spawn.StartBroadcast false] := by
  obtain ⟨scheme, hostport, hc, hs, hh⟩ := hprobe _ _ hok
  have hsplit := Split_scheme scheme hostport hs hh
  have h := (listenStep_adoption_cases p datagram s hfree hok).1
    (by rw [hc, hsplit]; exact le_refl 2)
  refine ⟨scheme, hostport, hc, h.1, ?_⟩
  rw [h.2, hc, hsplit]
  rfl

/-- C8. Adoption starts propagation. The candidates that pass the liveness probe are proxy
URIs `<scheme>://<host:port>` (`ProbeNeedsURI`). Then in every pass of the listener on which
no live proxy is held and the decrypted candidate passes the probe, all three happen: the
candidate is stored in `AgentProxy`, `TCPFwd` is started with the candidate without its
`<scheme>://` prefix as remote target and `ProxyPort` as local port, and
`StartBroadcast(false)` is started; and every pass that changes `AgentProxy` starts the
bridge and the advertiser. -/
theorem adoption_starts_propagation (p : Peer) (s : Listener) (hprobe : ProbeNeedsURI p) :
    (∀ datagram : GoString,
        (s.AgentProxy = [] ∨ p.IsProxyOK s.probes s.AgentProxy = false) →
        p.IsProxyOK (candidateProbe s) (p.AESDecrypt datagram) = true →
        ∃ scheme hostport : GoString,
          p.AESDecrypt datagram = scheme ++ lit "://" ++ hostport ∧
            (listenStep p (.ok datagram) s).AgentProxy = p.AESDecrypt datagram ∧
            (listenStep p (.ok datagram) s).spawned = s.spawned ++
              [Spawn.TCPFwd hostport ProxyPort, Spawn.StartBroadcast false]) ∧
      (∀ rd : Except String GoString, (listenStep p rd s).AgentProxy ≠ s.AgentProxy →
        ∃ hostport : GoString,
          (listenStep p rd s).spawned = s.spawned ++
            [Spawn.TCPFwd hostport ProxyPort, Spawn.StartBroadcast false]) := by
  refine ⟨fun datagram hfree hok => adoption_of_proxy_URI p datagram s hprobe hfree hok, ?_⟩
  intro rd hne
  cases rd with
  | error e => exact absurd rfl hne
  | ok datagram =>
    by_cases hdec : p.AESDecrypt datagram = []
    · rw [listenStep_undecryptable p datagram s hdec] at hne
      exact absurd rfl hne
    · rcases listenStep_cases p s with ⟨hset, hlive⟩ | hfree
      · rw [listenStep_working p datagram s hdec hset hlive] at hne
        exact absurd rfl hne
      · cases hok : p.IsProxyOK (candidateProbe s) (p.AESDecrypt datagram)
        · rw [listenStep_rejected p datagram s hdec hfree hok] at hne
          exact absurd rfl hne
        · obtain ⟨_, hostport, _, _, hsp⟩ :=
            adoption_of_proxy_URI p datagram s hprobe hfree hok
          exact ⟨hostport, hsp⟩

theorem peerOneProxy_needs_URI : ProbeNeedsURI peerOneProxy := by
  intro k a h
  have ha : a = lit "socks5://10.0.0.1:1080" := by simpa [peerOneProxy] using h
  subst ha
  exact ⟨lit "socks5", lit "10.0.0.1:1080", by decide, by decide, by decide⟩

/-- Witness of C8: only `socks5://10.0.0.1:1080` answers, no proxy is held and an
advertisement for it is received. -/
theorem adoption_starts_propagation_witness :
    ProbeNeedsURI peerOneProxy ∧
      ∃ scheme hostport : GoString,
        lit "socks5://10.0.0.1:1080" = scheme ++ lit "://" ++ hostport ∧
          (listenStep peerOneProxy (.ok (lit "socks5://10.0.0.1:1080"))
            { AgentProxy := [], spawned := [], probes := 0 }).AgentProxy
            = lit "socks5://10.0.0.1:1080" ∧
          (listenStep peerOneProxy (.ok (lit "socks5://10.0.0.1:1080"))
            { AgentProxy := [], spawned := [], probes := 0 }).spawned = [] ++
            [Spawn.TCPFwd hostport ProxyPort, Spawn.StartBroadcast false] :=
  ⟨peerOneProxy_needs_URI,
    (adoption_starts_propagation peerOneProxy { AgentProxy := [], spawned := [], probes := 0 }
      peerOneProxy_needs_URI).1 (lit "socks5://10.0.0.1:1080") (Or.inl rfl) (by decide)⟩

/-! ## Theorems: UTF-8 -/

theorem getu4_u00 (b : Nat) (hb : b < 128) (tl : GoString) :
    getu4 (92 :: 117 :: 48 :: 48 :: hex (b / 16) :: hex (b % 16) :: tl) = some b := by
  interval_cases b <;> rfl

theorem DecodeRune_ascii (b : Nat) (t : GoString) (hb : b < 0x80) :
    DecodeRune (b :: t) = (b, 1) := by
  simp [DecodeRune, first, hb]

theorem first_cases (b : Nat) (hb : ¬ b < 0x80) :
    first b = 0xF1 ∨ (first b = 0x02 ∧ 0xC2 ≤ b ∧ b ≤ 0xDF) ∨ (first b = 0x13 ∧ b = 0xE0) ∨
      (first b = 0x03 ∧ 0xE1 ≤ b ∧ b ≤ 0xEF ∧ b ≠ 0xED) ∨ (first b = 0x23 ∧ b = 0xED) ∨
      (first b = 0x34 ∧ b = 0xF0) ∨ (first b = 0x04 ∧ 0xF1 ≤ b ∧ b ≤ 0xF3) ∨
      (first b = 0x44 ∧ b = 0xF4) := by
  unfold first
  split_ifs <;> omega

theorem DecodeRune_two (b b1 : Nat) (t1 : GoString) (x lo hi : Nat) (hx : first b = x)
    (hlt : ¬ x ≥ 0xF0) (hsz : x % 8 = 2) (hr : acceptRanges (x / 16) = (lo, hi))
    (hb1 : ¬ (b1 < lo ∨ hi < b1)) :
    DecodeRune (b :: b1 :: t1) = ((b % 32) * 64 + b1 % 64, 2) := by
  have hl : ¬ (b :: b1 :: t1).length < 2 := by simp
  have hs2 : (2 : Nat) ≤ 2 := le_refl 2
  simp only [DecodeRune, hx, hlt, if_false, hsz, hr, hb1, hl, hs2, if_true]

theorem DecodeRune_three (b b1 b2 : Nat) (t2 : GoString) (x lo hi : Nat) (hx : first b = x)
    (hlt : ¬ x ≥ 0xF0) (hsz : x % 8 = 3) (hr : acceptRanges (x / 16) = (lo, hi))
    (hb1 : ¬ (b1 < lo ∨ hi < b1)) (hb2 : ¬ (b2 < 0x80 ∨ 0xBF < b2)) :
    DecodeRune (b :: b1 :: b2 :: t2) = ((b % 16) * 4096 + (b1 % 64) * 64 + b2 % 64, 3) := by
  have hl : ¬ (b :: b1 :: b2 :: t2).length < 3 := by simp
  have hs2 : ¬ (3 : Nat) ≤ 2 := by decide
  have hs3 : (3 : Nat) ≤ 3 := le_refl 3
  simp only [DecodeRune, hx, hlt, if_false, hsz, hr, hb1, hb2, hl, hs2, hs3, if_true]

theorem DecodeRune_four (b b1 b2 b3 : Nat) (t3 : GoString) (x lo hi : Nat) (hx : first b = x)
    (hlt : ¬ x ≥ 0xF0) (hsz : x % 8 = 4) (hr : acceptRanges (x / 16) = (lo, hi))
    (hb1 : ¬ (b1 < lo ∨ hi < b1)) (hb2 : ¬ (b2 < 0x80 ∨ 0xBF < b2))
    (hb3 : ¬ (b3 < 0x80 ∨ 0xBF < b3)) :
    DecodeRune (b :: b1 :: b2 :: b3 :: t3) =
      ((b % 8) * 262144 + (b1 % 64) * 4096 + (b2 % 64) * 64 + b3 % 64, 4) := by
  have hl : ¬ (b :: b1 :: b2 :: b3 :: t3).length < 4 := by simp
  have hs2 : ¬ (4 : Nat) ≤ 2 := by decide
  have hs3 : ¬ (4 : Nat) ≤ 3 := by decide
  simp only [DecodeRune, hx, hlt, if_false, hsz, hr, hb1, hb2, hb3, hl, hs2, hs3, if_true]

theorem DecodeRune_shape (b : Nat) (t : GoString) (x sz lo hi : Nat) (hx : first b = x)
    (hlt : ¬ x ≥ 0xF0) (hsz : x % 8 = sz) (hr : acceptRanges (x / 16) = (lo, hi))
    (h2 : 2 ≤ sz) (h4 : sz ≤ 4) :
    DecodeRune (b :: t) = (RuneError, 1) ∨
      (sz = 2 ∧ ∃ b1 t1, t = b1 :: t1 ∧ ¬ (b1 < lo ∨ hi < b1)) ∨
      (sz = 3 ∧ ∃ b1 b2 t2, t = b1 :: b2 :: t2 ∧ ¬ (b1 < lo ∨ hi < b1) ∧
        ¬ (b2 < 0x80 ∨ 0xBF < b2)) ∨
      (sz = 4 ∧ ∃ b1 b2 b3 t3, t = b1 :: b2 :: b3 :: t3 ∧ ¬ (b1 < lo ∨ hi < b1) ∧
        ¬ (b2 < 0x80 ∨ 0xBF < b2) ∧ ¬ (b3 < 0x80 ∨ 0xBF < b3)) := by
  rcases t with _ | ⟨b1, t1⟩
  · left
    simp only [DecodeRune, hx, hlt, if_false, hsz]
    split_ifs <;> rfl
  · by_cases hb1 : b1 < lo ∨ hi < b1
    · left
      simp only [DecodeRune, hx, hlt, if_false, hsz, hr, hb1, if_true]
      split_ifs <;> rfl
    · by_cases hs2 : sz ≤ 2
      · right; left
        exact ⟨by omega, b1, t1, rfl, hb1⟩
      · rcases t1 with _ | ⟨b2, t2⟩
        · left
          have hl : (b :: [b1]).length < sz := by simp; omega
          simp only [DecodeRune, hx, hlt, if_false, hsz, hl, if_true]
        · by_cases hb2 : b2 < 0x80 ∨ 0xBF < b2
          · left
            simp only [DecodeRune, hx, hlt, if_false, hsz, hr, hb1, hs2, hb2, if_true]
            split_ifs <;> rfl
          · by_cases hs3 : sz ≤ 3
            · right; right; left
              exact ⟨by omega, b1, b2, t2, rfl, hb1, hb2⟩
            · rcases t2 with _ | ⟨b3, t3⟩
              · left
                have hl : (b :: b1 :: [b2]).length < sz := by simp; omega
                simp only [DecodeRune, hx, hlt, if_false, hsz, hl, if_true]
              · by_cases hb3 : b3 < 0x80 ∨ 0xBF < b3
                · left
                  simp only [DecodeRune, hx, hlt, if_false, hsz, hr, hb1, hs2, hb2, hs3, hb3,
                    if_true]
                  split_ifs <;> rfl
                · right; right; right
                  exact ⟨by omega, b1, b2, b3, t3, rfl, hb1, hb2, hb3⟩

theorem EncodeRune_two (b b1 : Nat) (h0 : 0xC2 ≤ b) (h1 : b ≤ 0xDF) (h2 : 0x80 ≤ b1)
    (h3 : b1 ≤ 0xBF) : EncodeRune ((b % 32) * 64 + b1 % 64) = [b, b1] := by
  unfold EncodeRune
  have ha : ¬ (b % 32) * 64 + b1 % 64 ≤ 0x7F := by omega
  have hb : (b % 32) * 64 + b1 % 64 ≤ 0x7FF := by omega
  rw [if_neg ha, if_pos hb]
  congr 1
  · omega
  · congr 1; omega

theorem EncodeRune_three (b b1 b2 : Nat) (h0 : 0xE0 ≤ b) (h1 : b ≤ 0xEF)
    (h2 : 0x80 ≤ b1) (h3 : b1 ≤ 0xBF) (hE0 : b = 0xE0 → 0xA0 ≤ b1) (hED : b = 0xED → b1 ≤ 0x9F)
    (h4 : 0x80 ≤ b2) (h5 : b2 ≤ 0xBF) :
    EncodeRune ((b % 16) * 4096 + (b1 % 64) * 64 + b2 % 64) = [b, b1, b2] := by
  unfold EncodeRune
  have ha : ¬ (b % 16) * 4096 + (b1 % 64) * 64 + b2 % 64 ≤ 0x7F := by omega
  have hb : ¬ (b % 16) * 4096 + (b1 % 64) * 64 + b2 % 64 ≤ 0x7FF := by omega
  have hc : ¬ ((b % 16) * 4096 + (b1 % 64) * 64 + b2 % 64 > 0x10FFFF ∨
      (0xD800 ≤ (b % 16) * 4096 + (b1 % 64) * 64 + b2 % 64 ∧
        (b % 16) * 4096 + (b1 % 64) * 64 + b2 % 64 ≤ 0xDFFF)) := by omega
  have hd : (b % 16) * 4096 + (b1 % 64) * 64 + b2 % 64 ≤ 0xFFFF := by omega
  rw [if_neg ha, if_neg hb, if_neg hc, if_pos hd]
  congr 1
  · omega
  · congr 1
    · omega
    · congr 1; omega

theorem EncodeRune_four (b b1 b2 b3 : Nat) (h0 : 0xF0 ≤ b) (h1 : b ≤ 0xF4)
    (h2 : 0x80 ≤ b1) (h3 : b1 ≤ 0xBF) (hF0 : b = 0xF0 → 0x90 ≤ b1) (hF4 : b = 0xF4 → b1 ≤ 0x8F)
    (h4 : 0x80 ≤ b2) (h5 : b2 ≤ 0xBF) (h6 : 0x80 ≤ b3) (h7 : b3 ≤ 0xBF) :
    EncodeRune ((b % 8) * 262144 + (b1 % 64) * 4096 + (b2 % 64) * 64 + b3 % 64)
      = [b, b1, b2, b3] := by
  unfold EncodeRune
  have ha : ¬ (b % 8) * 262144 + (b1 % 64) * 4096 + (b2 % 64) * 64 + b3 % 64 ≤ 0x7F := by omega
  have hb : ¬ (b % 8) * 262144 + (b1 % 64) * 4096 + (b2 % 64) * 64 + b3 % 64 ≤ 0x7FF := by
    omega
  have hc : ¬ ((b % 8) * 262144 + (b1 % 64) * 4096 + (b2 % 64) * 64 + b3 % 64 > 0x10FFFF ∨
      (0xD800 ≤ (b % 8) * 262144 + (b1 % 64) * 4096 + (b2 % 64) * 64 + b3 % 64 ∧
        (b % 8) * 262144 + (b1 % 64) * 4096 + (b2 % 64) * 64 + b3 % 64 ≤ 0xDFFF)) := by omega
  have hd : ¬ (b % 8) * 262144 + (b1 % 64) * 4096 + (b2 % 64) * 64 + b3 % 64 ≤ 0xFFFF := by
    omega
  rw [if_neg ha, if_neg hb, if_neg hc, if_neg hd]
  congr 1
  · omega
  · congr 1
    · omega
    · congr 1
      · omega
      · congr 1; omega

theorem ValidHead_of_first (b : Nat) (t : GoString) (x sz lo hi : Nat) (hx : first b = x)
    (hlt : ¬ x ≥ 0xF0) (hsz : x % 8 = sz) (hr : acceptRanges (x / 16) = (lo, hi))
    (h2 : 2 ≤ sz) (h4 : sz ≤ 4) (hlo : 0x80 ≤ lo) (hhi : hi ≤ 0xBF)
    (hs2 : sz = 2 → 0xC2 ≤ b ∧ b ≤ 0xDF)
    (hs3 : sz = 3 → 0xE0 ≤ b ∧ b ≤ 0xEF ∧ (b = 0xE0 → 0xA0 ≤ lo) ∧ (b = 0xED → hi ≤ 0x9F))
    (hs4 : sz = 4 → 0xF0 ≤ b ∧ b ≤ 0xF4 ∧ (b = 0xF0 → 0x90 ≤ lo) ∧ (b = 0xF4 → hi ≤ 0x8F))
    (hv : ¬ ((DecodeRune (b :: t)).1 = RuneError ∧ (DecodeRune (b :: t)).2 = 1)) :
    ValidHead b t := by
  rcases DecodeRune_shape b t x sz lo hi hx hlt hsz hr h2 h4 with
    he | ⟨hz, b1, t1, ht, hb1⟩ | ⟨hz, b1, b2, t2, ht, hb1, hb2⟩ |
    ⟨hz, b1, b2, b3, t3, ht, hb1, hb2, hb3⟩
  · exact absurd (by rw [he]; exact ⟨rfl, rfl⟩) hv
  · subst ht
    have hd := fun tl => DecodeRune_two b b1 tl x lo hi hx hlt (hsz.trans hz) hr hb1
    obtain ⟨h0, h1⟩ := hs2 hz
    refine ⟨[b1], t1, rfl, by rw [hd]; rfl, ?_, fun tl => by rw [hd t1]; exact hd tl, ?_⟩
    · rw [hd]
      exact EncodeRune_two b b1 h0 h1 (by omega) (by omega)
    · intro x hx
      simp only [List.mem_cons, List.mem_singleton, List.not_mem_nil, or_false] at hx
      rcases hx with h | h <;> omega
  · subst ht
    have hd := fun tl => DecodeRune_three b b1 b2 tl x lo hi hx hlt (hsz.trans hz) hr hb1 hb2
    obtain ⟨h0, h1, hE0, hED⟩ := hs3 hz
    refine ⟨[b1, b2], t2, rfl, by rw [hd]; rfl, ?_, fun tl => by rw [hd t2]; exact hd tl, ?_⟩
    · rw [hd]
      exact EncodeRune_three b b1 b2 h0 h1 (by omega) (by omega)
        (fun h => by have := hE0 h; omega) (fun h => by have := hED h; omega)
        (by omega) (by omega)
    · intro x hx
      simp only [List.mem_cons, List.mem_singleton, List.not_mem_nil, or_false] at hx
      rcases hx with h | h | h <;> omega
  · subst ht
    have hd := fun tl =>
      DecodeRune_four b b1 b2 b3 tl x lo hi hx hlt (hsz.trans hz) hr hb1 hb2 hb3
    obtain ⟨h0, h1, hF0, hF4⟩ := hs4 hz
    refine ⟨[b1, b2, b3], t3, rfl, by rw [hd]; rfl, ?_, fun tl => by rw [hd t3]; exact hd tl,
      ?_⟩
    · rw [hd]
      exact EncodeRune_four b b1 b2 b3 h0 h1 (by omega) (by omega)
        (fun h => by have := hF0 h; omega) (fun h => by have := hF4 h; omega)
        (by omega) (by omega) (by omega) (by omega)
    · intro x hx
      simp only [List.mem_cons, List.mem_singleton, List.not_mem_nil, or_false] at hx
      rcases hx with h | h | h | h <;> omega

theorem DecodeRune_valid (b : Nat) (t : GoString) (hb : ¬ b < 0x80)
    (hv : ¬ ((DecodeRune (b :: t)).1 = RuneError ∧ (DecodeRune (b :: t)).2 = 1)) :
    ValidHead b t := by
  rcases first_cases b hb with hx | ⟨hx, h⟩ | ⟨hx, h⟩ | ⟨hx, h⟩ | ⟨hx, h⟩ | ⟨hx, h⟩ |
    ⟨hx, h⟩ | ⟨hx, h⟩
  · exfalso
    apply hv
    simp [DecodeRune, hx]
  · exact ValidHead_of_first b t 0x02 2 0x80 0xBF hx (by decide) (by decide) (by rfl)
      (by decide) (by decide) (by decide) (by decide) (fun _ => h)
      (fun e => absurd e (by decide)) (fun e => absurd e (by decide)) hv
  · exact ValidHead_of_first b t 0x13 3 0xA0 0xBF hx (by decide) (by decide) (by rfl)
      (by decide) (by decide) (by decide) (by decide) (fun e => absurd e (by decide))
      (fun _ => ⟨by omega, by omega, fun _ => le_refl _, fun _ => by omega⟩) (fun e => absurd e (by decide)) hv
  · exact ValidHead_of_first b t 0x03 3 0x80 0xBF hx (by decide) (by decide) (by rfl)
      (by decide) (by decide) (by decide) (by decide) (fun e => absurd e (by decide))
      (fun _ => ⟨by omega, by omega, fun _ => by omega, fun _ => by omega⟩) (fun e => absurd e (by decide)) hv
  · exact ValidHead_of_first b t 0x23 3 0x80 0x9F hx (by decide) (by decide) (by rfl)
      (by decide) (by decide) (by decide) (by decide) (fun e => absurd e (by decide))
      (fun _ => ⟨by omega, by omega, fun _ => by omega, fun _ => le_refl _⟩) (fun e => absurd e (by decide)) hv
  · exact ValidHead_of_first b t 0x34 4 0x90 0xBF hx (by decide) (by decide) (by rfl)
      (by decide) (by decide) (by decide) (by decide) (fun e => absurd e (by decide))
      (fun e => absurd e (by decide)) (fun _ => ⟨by omega, by omega, fun _ => le_refl _, fun _ => by omega⟩) hv
  · exact ValidHead_of_first b t 0x04 4 0x80 0xBF hx (by decide) (by decide) (by rfl)
      (by decide) (by decide) (by decide) (by decide) (fun e => absurd e (by decide))
      (fun e => absurd e (by decide)) (fun _ => ⟨by omega, by omega, fun _ => by omega, fun _ => by omega⟩) hv
  · exact ValidHead_of_first b t 0x44 4 0x80 0x8F hx (by decide) (by decide) (by rfl)
      (by decide) (by decide) (by decide) (by decide) (fun e => absurd e (by decide))
      (fun e => absurd e (by decide)) (fun _ => ⟨by omega, by omega, fun _ => by omega, fun _ => le_refl _⟩) hv

theorem validLoop_bytes (n : Nat) :
    ∀ s : GoString, s.length ≤ n → validLoop n s = true → ∀ x ∈ s, x < 256 := by
  induction n with
  | zero =>
    intro s hs _ x hx
    have : s = [] := List.eq_nil_of_length_eq_zero (by omega)
    subst this
    cases hx
  | succ n ih =>
    intro s hs hv
    cases s with
    | nil => intro x hx; cases hx
    | cons b t =>
      have hlen : t.length ≤ n := by simpa using hs
      by_cases hb : b < 0x80
      · have hvt : validLoop n t = true := by
          have hne : b ≠ RuneError := by unfold RuneError; omega
          simpa [validLoop, DecodeRune_ascii b t hb, hne] using hv
        intro x hx
        rcases List.mem_cons.1 hx with h | h
        · omega
        · exact ih t hlen hvt x h
      · have hv' : ¬ ((DecodeRune (b :: t)).1 = RuneError ∧ (DecodeRune (b :: t)).2 = 1) ∧
            validLoop n ((b :: t).drop (DecodeRune (b :: t)).2) = true := by
          simp only [validLoop] at hv
          split_ifs at hv with h
          exact ⟨h, hv⟩
        obtain ⟨hok, hvrest⟩ := hv'
        obtain ⟨ps, rest, ht, hsz, _, _, hbytes⟩ := DecodeRune_valid b t hb hok
        have hdrop : (b :: t).drop (DecodeRune (b :: t)).2 = rest := by
          rw [hsz, ht, List.drop_succ_cons, List.drop_left]
        rw [hdrop] at hvrest
        have hrlen : rest.length ≤ n := by
          have : t.length = ps.length + rest.length := by rw [ht, List.length_append]
          omega
        intro x hx
        rw [ht, ← List.cons_append] at hx
        rcases List.mem_append.1 hx with h | h
        · exact hbytes x h
        · exact ih rest hrlen hvrest x h

/-- A valid UTF-8 string is a string of bytes. -/
theorem ValidString_bytes (s : GoString) (hv : ValidString s = true) : ∀ x ∈ s, x < 256 :=
  validLoop_bytes s.length s (le_refl _) hv

/-! ## Theorems: the wire codec -/

theorem unquote_closing (m : Nat) (tail : GoString) (hm : 0 < m) :
    unquote m (34 :: tail) = some ([], tail) := by
  cases m with
  | zero => omega
  | succ k => simp [unquote]

theorem unquote_plain (k c : Nat) (rest : GoString) (h1 : c ≠ 34) (h2 : c ≠ 92)
    (h3 : ¬ c < 0x20) (h4 : c < 0x80) :
    unquote (k + 1) (c :: rest) = (unquote k rest).map fun r => (c :: r.1, r.2) := by
  simp [unquote, h1, h2, h3, h4]

theorem unquote_escaped_self (k e : Nat) (rest : GoString) (he : e = 92 ∨ e = 34) :
    unquote (k + 1) (92 :: e :: rest) = (unquote k rest).map fun r => (e :: r.1, r.2) := by
  rcases he with h | h <;> subst h <;> simp [unquote]

theorem unquote_escaped_n (k : Nat) (rest : GoString) :
    unquote (k + 1) (92 :: 110 :: rest) = (unquote k rest).map fun r => (10 :: r.1, r.2) := by
  simp [unquote]

theorem unquote_escaped_r (k : Nat) (rest : GoString) :
    unquote (k + 1) (92 :: 114 :: rest) = (unquote k rest).map fun r => (13 :: r.1, r.2) := by
  simp [unquote]

theorem unquote_escaped_t (k : Nat) (rest : GoString) :
    unquote (k + 1) (92 :: 116 :: rest) = (unquote k rest).map fun r => (9 :: r.1, r.2) := by
  simp [unquote]

theorem unquote_u4 (k c1 c2 c3 c4 rr : Nat) (rest : GoString)
    (hg : getu4 (92 :: 117 :: c1 :: c2 :: c3 :: c4 :: rest) = some rr)
    (hsur : ¬ (0xD800 ≤ rr ∧ rr < 0xE000)) :
    unquote (k + 1) (92 :: 117 :: c1 :: c2 :: c3 :: c4 :: rest) =
      (unquote k rest).map fun r => (EncodeRune rr ++ r.1, r.2) := by
  simp [unquote, hg, hsur]

theorem unquote_multibyte (k c : Nat) (rest : GoString) (hc : ¬ c < 0x80) :
    unquote (k + 1) (c :: rest) =
      (unquote k ((c :: rest).drop (DecodeRune (c :: rest)).2)).map fun r =>
        (EncodeRune (DecodeRune (c :: rest)).1 ++ r.1, r.2) := by
  have h1 : c ≠ 34 := by omega
  have h2 : c ≠ 92 := by omega
  have h3 : ¬ c < 0x20 := by omega
  simp [unquote, h1, h2, h3, hc]

theorem getu4_u202 (c : Nat) (hc : c = 0x2028 ∨ c = 0x2029) (tl : GoString) :
    getu4 (92 :: 117 :: 50 :: 48 :: 50 :: hex (c % 16) :: tl) = some c := by
  rcases hc with h | h <;> subst h <;> rfl

theorem lit_u202 : lit "\\u202" = [92, 117, 50, 48, 50] := by decide

theorem unquote_encodeStringLoop (n : Nat) :
    ∀ s : GoString, s.length ≤ n → validLoop n s = true →
      ∀ (m : Nat) (tail : GoString), (encodeStringLoop n s).length < m →
        unquote m (encodeStringLoop n s ++ 34 :: tail) = some (s, tail) := by
  induction n with
  | zero =>
    intro s hs _ m tail hm
    have : s = [] := List.eq_nil_of_length_eq_zero (by omega)
    subst this
    exact unquote_closing m tail (by omega)
  | succ n ih =>
    intro s hs hv m tail hm
    cases s with
    | nil => exact unquote_closing m tail (by omega)
    | cons b t =>
      have hlen : t.length ≤ n := by simpa using hs
      obtain ⟨k, rfl⟩ : ∃ k, m = k + 1 := ⟨m - 1, by omega⟩
      by_cases hb : b < 0x80
      · have hvt : validLoop n t = true := by
          have hne : b ≠ RuneError := by unfold RuneError; omega
          simpa [validLoop, DecodeRune_ascii b t hb, hne] using hv
        have hrec := ih t hlen hvt
        simp only [encodeStringLoop, hb, if_true] at hm ⊢
        split_ifs at hm ⊢ with hsafe h1 h2 h3 h4
        · have hs' : 0x20 ≤ b ∧ b < 0x80 ∧ b ≠ 34 ∧ b ≠ 38 ∧ b ≠ 60 ∧ b ≠ 62 ∧ b ≠ 92 := by
            simpa [htmlSafeSet] using hsafe
          rw [List.cons_append, unquote_plain k b _ hs'.2.2.1 hs'.2.2.2.2.2.2 (by omega) hb,
            hrec k tail (by simpa using hm)]
          rfl
        · rw [List.cons_append, List.cons_append, unquote_escaped_self k b _ h1,
            hrec k tail (by simp at hm; omega)]
          rfl
        · subst h2
          rw [List.cons_append, List.cons_append, unquote_escaped_n,
            hrec k tail (by simp at hm; omega)]
          rfl
        · subst h3
          rw [List.cons_append, List.cons_append, unquote_escaped_r,
            hrec k tail (by simp at hm; omega)]
          rfl
        · subst h4
          rw [List.cons_append, List.cons_append, unquote_escaped_t,
            hrec k tail (by simp at hm; omega)]
          rfl
        · simp only [List.cons_append]
          rw [unquote_u4 k _ _ _ _ b _ (getu4_u00 b hb _) (by omega),
            hrec k tail (by simp at hm; omega)]
          have he : EncodeRune b = [b] := by
            unfold EncodeRune
            rw [if_pos (by omega)]
          simp [he]
      · have hv' : ¬ ((DecodeRune (b :: t)).1 = RuneError ∧ (DecodeRune (b :: t)).2 = 1) ∧
            validLoop n ((b :: t).drop (DecodeRune (b :: t)).2) = true := by
          simp only [validLoop] at hv
          split_ifs at hv with h
          exact ⟨h, hv⟩
        obtain ⟨hok, hvrest⟩ := hv'
        obtain ⟨ps, rest, ht, hsz, henc, hdec, _⟩ := DecodeRune_valid b t hb hok
        have hdrop : (b :: t).drop (DecodeRune (b :: t)).2 = rest := by
          rw [hsz, ht, List.drop_succ_cons, List.drop_left]
        have htake : (b :: t).take (DecodeRune (b :: t)).2 = b :: ps := by
          rw [hsz, ht, List.take_succ_cons, List.take_left]
        rw [hdrop] at hvrest
        have hrlen : rest.length ≤ n := by
          have : t.length = ps.length + rest.length := by rw [ht, List.length_append]
          omega
        have hrec := ih rest hrlen hvrest
        simp only [encodeStringLoop, hb, if_false, hok, hdrop, htake] at hm ⊢
        split_ifs at hm ⊢ with h28
        · rw [lit_u202] at hm ⊢
          simp only [List.cons_append, List.nil_append]
          rw [unquote_u4 k _ _ _ _ (DecodeRune (b :: t)).1 _ (getu4_u202 _ h28 _)
              (by rcases h28 with h | h <;> rw [h] <;> decide),
            hrec k tail (by simp at hm; omega), henc, ht]
          rfl
        · have hk : (encodeStringLoop n rest).length < k := by
            simp at hm; omega
          simp only [List.cons_append, List.append_assoc]
          rw [unquote_multibyte k b _ hb, hdec, hsz,
            List.drop_succ_cons, List.drop_left, hrec k tail hk, henc, ht]
          rfl

theorem unquote_encodeString (s tail : GoString) (hv : ValidString s = true) :
    unquote (encodeStringLoop s.length s ++ 34 :: tail).length
      (encodeStringLoop s.length s ++ 34 :: tail) = some (s, tail) :=
  unquote_encodeStringLoop s.length s (le_refl _) hv _ tail (by simp)

theorem skipSpace_cons (c : Nat) (t : GoString) (h : ¬ (c = 32 ∨ c = 9 ∨ c = 13 ∨ c = 10)) :
    skipSpace (c :: t) = c :: t := by
  simp only [skipSpace, h, if_false]

theorem decodeMembers_member (n : Nat) (msg : MsgTunData) (key val tail : GoString)
    (hk : ValidString key = true) (hke : encodeStringLoop key.length key = key)
    (hv : ValidString val = true) :
    decodeMembers (n + 1) msg
        (34 :: (key ++ 34 :: 58 :: 34 :: (encodeStringLoop val.length val ++ 34 :: tail))) =
      match skipSpace tail with
      | 44 :: s6 => decodeMembers n (setField msg key val) s6
      | 125 :: rest => .ok (setField msg key val, rest)
      | _ => .error "invalid character after object key:value pair" := by
  have h1 := unquote_encodeString key
    (58 :: 34 :: (encodeStringLoop val.length val ++ 34 :: tail)) hk
  rw [hke] at h1
  have h2 := unquote_encodeString val tail hv
  rw [decodeMembers, skipSpace_cons 34 _ (by decide)]
  simp only [h1]
  rw [skipSpace_cons 58 _ (by decide)]
  simp only []
  rw [skipSpace_cons 34 _ (by decide)]
  simp only [h2]

theorem lit_payload_key : lit "\"payload\":" = 34 :: (lit "payload" ++ [34, 58]) := by decide

theorem lit_tag_key : lit ",\"tag\":" = 44 :: 34 :: (lit "tag" ++ [34, 58]) := by decide

theorem Encode_append (m : MsgTunData) (rest : GoString) :
    Encode m ++ rest =
      123 :: 34 :: (lit "payload" ++ 34 :: 58 :: 34 ::
        (encodeStringLoop m.Payload.length m.Payload ++ 34 :: 44 :: 34 ::
          (lit "tag" ++ 34 :: 58 :: 34 ::
            (encodeStringLoop m.Tag.length m.Tag ++ 34 :: 125 :: 10 :: rest)))) := by
  simp only [Encode, Marshal, encodeString, lit_payload_key, lit_tag_key, List.cons_append,
    List.append_assoc, List.nil_append]

theorem setField_both (old m : MsgTunData) :
    setField (setField old (lit "payload") m.Payload) (lit "tag") m.Tag = m := by
  have h : lit "tag" ≠ lit "payload" := by decide
  cases m
  simp [setField, h]

theorem Decode_Encode (m old : MsgTunData) (rest : GoString)
    (hp : ValidString m.Payload = true) (ht : ValidString m.Tag = true) :
    Decode old (Encode m ++ rest) = .ok (m, 10 :: rest) := by
  rw [Encode_append, Decode, skipSpace_cons 123 _ (by decide)]
  simp only []
  rw [skipSpace_cons 34 _ (by decide)]
  simp only [List.length_cons]
  rw [decodeMembers_member _ old (lit "payload") m.Payload _ (by decide) (by decide) hp,
    skipSpace_cons 44 _ (by decide)]
  simp only [List.length_append, List.length_cons]
  rw [show (lit "tag").length = 2 + 1 by decide]
  simp only [← Nat.add_assoc]
  rw [decodeMembers_member _ _ (lit "tag") m.Tag _ (by decide) (by decide) ht,
    skipSpace_cons 125 _ (by decide)]
  simp only [setField_both]

/-- C9, as stated, fails: the Go string holding the single byte `0xFF` is not valid UTF-8;
the encoder writes it as the escape `\ufffd`, and decoding gives the three bytes of U+FFFD,
not the byte sent. -/
theorem wire_round_trip_counterexample :
    Decode { Payload := [], Tag := [] } (Encode { Payload := [255], Tag := [] }) =
        .ok ({ Payload := [239, 191, 189], Tag := [] }, [10]) ∧
      ({ Payload := [239, 191, 189], Tag := [] } : MsgTunData) ≠ { Payload := [255], Tag := [] } :=
  ⟨by rfl, by decide⟩

/-- C9, amended. Wire round trip: for every `MsgTunData` value `m` whose `Payload` and `Tag`
are valid UTF-8, whatever `msg` held before and whatever follows on the stream, decoding the
bytes the encoder writes for `m` gives `m` and stops after the object; the encoded form is
the JSON object with the two keys `payload` and `tag`, in this order, followed by a
newline. -/
theorem wire_round_trip (m old : MsgTunData) (rest : GoString)
    (hp : ValidString m.Payload = true) (ht : ValidString m.Tag = true) :
    Decode old (Encode m ++ rest) = .ok (m, 10 :: rest) ∧
      Encode m = 123 :: lit "\"payload\":" ++ encodeString m.Payload ++ lit ",\"tag\":" ++
        encodeString m.Tag ++ [125] ++ [10] :=
  ⟨Decode_Encode m old rest hp ht, rfl⟩

/-- Witness of C9 amended: the heartbeat message. -/
theorem wire_round_trip_witness :
    ValidString helloMsg.Payload = true ∧ ValidString helloMsg.Tag = true ∧
      Decode { Payload := [], Tag := [] } (Encode helloMsg ++ []) = .ok (helloMsg, [10]) :=
  ⟨by decide, by decide,
    (wire_round_trip helloMsg { Payload := [], Tag := [] } [] (by decide) (by decide)).1⟩

/-! ## Theorems: the advertiser -/

theorem broadcastRound_attempts (env : Nat → SendEnv) (AESEncrypt : GoString → GoString)
    (IPbroadcastAddr : IPNet → GoString) (ips : List IPNet) :
    ∀ s : Advertiser,
      (broadcastRound env AESEncrypt IPbroadcastAddr ips s).attempts =
        s.attempts ++ expectedAttempts IPbroadcastAddr ips := by
  induction ips with
  | nil => intro s; simp [broadcastRound, expectedAttempts]
  | cons netip ips ih =>
    intro s
    by_cases hb : IPbroadcastAddr netip = []
    · simp only [broadcastRound, hb, if_true]
      rw [ih]
      simp [expectedAttempts, hb]
    · simp only [broadcastRound, hb, if_false]
      rw [ih]
      simp [expectedAttempts, hb]

/-- C10. Advertiser round: for every list of interfaces and whatever the outcomes of the
sends, one round calls `BroadcastMsg` exactly once per interface whose broadcast address is
not empty, in list order, with message `socks5://<IP>:<ProxyPort>` and that broadcast address
as destination; failed sends and interfaces without broadcast address do not stop the
round. -/
theorem advertiser_round_attempts (env : Nat → SendEnv) (AESEncrypt : GoString → GoString)
    (IPbroadcastAddr : IPNet → GoString) (ips : List IPNet) :
    (StartBroadcastRound env AESEncrypt IPbroadcastAddr ips).attempts =
      (ips.filter fun netip => decide (IPbroadcastAddr netip ≠ [])).map fun netip =>
        (lit "socks5://" ++ netip.IP ++ lit ":" ++ ProxyPort, IPbroadcastAddr netip) := by
  unfold StartBroadcastRound
  rw [broadcastRound_attempts]
  rfl

/-! ## Theorems: `CliPrettyPrint` -/

theorem Repeat_natCast (s : GoString) (n : Nat) :
    Repeat s (n : Int) = .ok (repeatLoop s n) := by
  have h : ¬ ((n : Int) < 0) := by omega
  simp [Repeat, h]

theorem Repeat_negative (s : GoString) (count : Int) (h : count < 0) :
    Repeat s count = .error "strings: negative Repeat count" := by
  simp [Repeat, h]

theorem repeatLoop_length (s : GoString) (n : Nat) :
    (repeatLoop s n).length = n * s.length := by
  induction n with
  | zero => simp [repeatLoop]
  | succ n ih =>
    simp only [repeatLoop, List.length_append, ih]
    rw [Nat.succ_mul]
    omega

theorem lit_space_length : (lit " ").length = 1 := by decide

theorem CliPrettyPrint_eq_printRows (header1 header2 : GoString)
    (map2write : List (GoString × GoString)) :
    CliPrettyPrint header1 header2 map2write =
      printRows header1 map2write (headerLines header1 header2) := by
  have h10 : Repeat (lit " ") 10 = .ok (repeatLoop (lit " ") 10) := Repeat_natCast _ 10
  simp only [CliPrettyPrint, h10, Repeat_natCast]
  rfl

theorem printRows_fit (header1 : GoString) (c1 c2 : GoString)
    (rest : List (GoString × GoString)) (out : List GoString)
    (h : c1.length ≤ header1.length + 10) :
    printRows header1 ((c1, c2) :: rest) out =
      printRows header1 rest (out ++ [alignedRow header1 (c1, c2)]) := by
  have hc : (header1.length : Int) + 10 - (c1.length : Int)
      = ((header1.length + 10 - c1.length : Nat) : Int) := by omega
  simp only [printRows, hc, Repeat_natCast]
  rfl

theorem printRows_all_fit (header1 : GoString) :
    ∀ (rows : List (GoString × GoString)) (out : List GoString),
      (∀ e ∈ rows, e.1.length ≤ header1.length + 10) →
      printRows header1 rows out =
        { out := out ++ rows.map (alignedRow header1), panic := none } := by
  intro rows
  induction rows with
  | nil => intro out _; simp [printRows]
  | cons e rows ih =>
    intro out h
    obtain ⟨c1, c2⟩ := e
    rw [printRows_fit header1 c1 c2 rows out (h (c1, c2) (List.mem_cons_self _ _)),
      ih _ (fun e he => h e (List.mem_cons_of_mem _ he))]
    simp

theorem printRows_long_key (header1 : GoString) :
    ∀ (before : List (GoString × GoString)) (c1 c2 : GoString)
      (after : List (GoString × GoString)) (out : List GoString),
      (∀ e ∈ before, e.1.length ≤ header1.length + 10) →
      header1.length + 10 < c1.length →
      printRows header1 (before ++ (c1, c2) :: after) out =
        { out := out ++ before.map (alignedRow header1),
          panic := some "strings: negative Repeat count" } := by
  intro before
  induction before with
  | nil =>
    intro c1 c2 after out _ hlong
    have hc : (header1.length : Int) + 10 - (c1.length : Int) < 0 := by omega
    simp [printRows, Repeat_negative _ _ hc]
  | cons e before ih =>
    intro c1 c2 after out h hlong
    obtain ⟨k1, k2⟩ := e
    rw [List.cons_append,
      printRows_fit header1 k1 k2 _ out (h (k1, k2) (List.mem_cons_self _ _)),
      ih c1 c2 after _ (fun e he => h e (List.mem_cons_of_mem _ he)) hlong]
    simp

theorem alignedRow_width (header1 : GoString) (e : GoString × GoString)
    (h : e.1.length ≤ header1.length + 10) :
    (e.1 ++ repeatLoop (lit " ") (header1.length + 10 - e.1.length)).length
      = header1.length + 10 := by
  rw [List.length_append, repeatLoop_length, lit_space_length]
  omega

/-- C11. `CliPrettyPrint` is not safe for every input. When the map holds a key longer than
`len(header1)+10` bytes, the count `len(header1)+10-len(key)` is negative and the call of
`strings.Repeat` panics when `range` reaches that key, after the header lines and the rows
of the keys visited before it. When every key has at most `len(header1)+10` bytes there is
no panic and every row is the key, `len(header1)+10-len(key)` spaces and the value, the key
and its separator being `len(header1)+10` bytes wide. With the headers `Option` and `Value`
the 17-byte key `interactive_shell` makes the call panic. -/
theorem CliPrettyPrint_long_key_panics :
    (∀ (header1 header2 : GoString) (before : List (GoString × GoString)) (c1 c2 : GoString)
        (after : List (GoString × GoString)),
        (∀ e ∈ before, e.1.length ≤ header1.length + 10) →
        header1.length + 10 < c1.length →
        (header1.length : Int) + 10 - (c1.length : Int) < 0 ∧
          CliPrettyPrint header1 header2 (before ++ (c1, c2) :: after) =
            { out := headerLines header1 header2 ++ before.map (alignedRow header1),
              panic := some "strings: negative Repeat count" }) ∧
      (∀ (header1 header2 : GoString) (rows : List (GoString × GoString)),
        (∀ e ∈ rows, e.1.length ≤ header1.length + 10) →
        CliPrettyPrint header1 header2 rows =
            { out := headerLines header1 header2 ++ rows.map (alignedRow header1),
              panic := none } ∧
          ∀ e ∈ rows,
            (e.1 ++ repeatLoop (lit " ") (header1.length + 10 - e.1.length)).length
              = header1.length + 10) ∧
      CliPrettyPrint (lit "Option") (lit "Value") [(lit "interactive_shell", lit "x")] =
        { out := headerLines (lit "Option") (lit "Value"),
          panic := some "strings: negative Repeat count" } := by
  refine ⟨?_, ?_, ?_⟩
  · intro header1 header2 before c1 c2 after hfit hlong
    refine ⟨by omega, ?_⟩
    rw [CliPrettyPrint_eq_printRows,
      printRows_long_key header1 before c1 c2 after _ hfit hlong]
  · intro header1 header2 rows hfit
    refine ⟨?_, fun e he => alignedRow_width header1 e (hfit e he)⟩
    rw [CliPrettyPrint_eq_printRows, printRows_all_fit header1 rows _ hfit]
  · have h := printRows_long_key (lit "Option") [] (lit "interactive_shell") (lit "x") []
      (headerLines (lit "Option") (lit "Value")) (fun e he => by cases he) (by decide)
    rw [CliPrettyPrint_eq_printRows]
    simpa using h

end Emp3r0r
